import Mathlib

/-!
# Verification of the SaferPlace SQL persistence engine

Shallow embedding of `internal/database/sqldatabase/sqldatabase.go` (package
`sqldatabase`).  The SQL store is modelled as explicit lists of rows, one list
per table, kept in insertion (rowid) order; every SQL statement of the Go file
is translated into the corresponding pure operation on those lists, and each
exported Go method becomes a pure function returning `Except DBError _`
(errors) or a new state.  Machine times are modelled as `Int` unix seconds,
SQL `REAL` columns as `ℚ`.
-/

namespace SaferPlace

/-- Resolution enumeration of the `api.safer.place/incident/v1` protobuf.
Modelled from the spec: the generated protobuf code is not part of this
repository; the spec's glossary lists the states `UNSPECIFIED`, `ACCEPTED`,
`ALERTED`, `REJECTED` and §6 fixes the canonical string labels
(`RESOLUTION_ACCEPTED` etc.), with `UNSPECIFIED` the zero value. -/
inductive Resolution
  | RESOLUTION_UNSPECIFIED
  | RESOLUTION_ACCEPTED
  | RESOLUTION_ALERTED
  | RESOLUTION_REJECTED
deriving DecidableEq, Repr, Inhabited

/-- `Resolution.String()` of the generated protobuf code: canonical label. -/
def resolutionString : Resolution → String
  | .RESOLUTION_UNSPECIFIED => "RESOLUTION_UNSPECIFIED"
  | .RESOLUTION_ACCEPTED => "RESOLUTION_ACCEPTED"
  | .RESOLUTION_ALERTED => "RESOLUTION_ALERTED"
  | .RESOLUTION_REJECTED => "RESOLUTION_REJECTED"

/-- The generated `incident.Resolution_value` map from labels to enum numbers
(modelled from the spec, see `Resolution`). -/
def Resolution_value : List (String × Int) :=
  [("RESOLUTION_UNSPECIFIED", 0), ("RESOLUTION_ACCEPTED", 1),
   ("RESOLUTION_ALERTED", 2), ("RESOLUTION_REJECTED", 3)]

/-- Casting an enum number back to `Resolution` (Go `incident.Resolution(v)`).
Only the four values produced by `Resolution_value` (or the Go map's zero
default) can reach this in the code. -/
def resolutionOfValue (v : Int) : Resolution :=
  if v = 1 then .RESOLUTION_ACCEPTED
  else if v = 2 then .RESOLUTION_ALERTED
  else if v = 3 then .RESOLUTION_REJECTED
  else .RESOLUTION_UNSPECIFIED

/-- Go map read `incident.Resolution_value[s]`: a missing key yields the zero
value `0`. -/
def resolutionValueLookup (s : String) : Int :=
  match Resolution_value.find? (fun p => p.1 = s) with
  | some p => p.2
  | none => 0

/-- `incident.Coordinates` protobuf message (lat/lon in degrees). -/
structure Coordinates where
  lat : ℚ
  lon : ℚ
deriving DecidableEq, Repr, Inhabited

/-- `incident.Comment` protobuf message.  The fields set by the Go code are
`Timestamp`, `AuthorId` and `Message`; the `resolution` snapshot field is
modelled from the spec (§3 data model) — the Go scan in `ViewIncident`
discards the stored resolution column, leaving the field at its zero value. -/
structure Comment where
  timestamp : Int
  authorId : String
  message : String
  resolution : Resolution
deriving DecidableEq, Repr, Inhabited

/-- `incident.Incident` protobuf message as used by the database layer. -/
structure Incident where
  id : String
  timestamp : Int
  description : String
  coordinates : Coordinates
  resolution : Resolution
  imageId : String
  reviewerComments : List Comment
deriving DecidableEq, Repr, Inhabited

/-- One row of the `incidents` table (`createTableQuery`): columns
`id, timestamp, description, lat, lon, resolution, image`; the resolution is
stored as its text label. -/
structure IncidentRow where
  id : String
  timestamp : Int
  description : String
  lat : ℚ
  lon : ℚ
  resolution : String
  image : String
deriving DecidableEq, Repr, Inhabited

/-- One row of the `comments` table: columns
`id, incident_id, timestamp, author, comment, resolution`. -/
structure CommentRow where
  id : String
  incident_id : String
  timestamp : Int
  author : String
  comment : String
  resolution : String
deriving DecidableEq, Repr, Inhabited

/-- One row of the `sessions` table: columns `id, expiry`. -/
structure SessionRow where
  id : String
  expiry : Int
deriving DecidableEq, Repr, Inhabited

/-- The whole SQL store, each table in rowid (insertion) order. -/
structure DBState where
  incidents : List IncidentRow
  comments : List CommentRow
  sessions : List SessionRow
deriving DecidableEq, Repr, Inhabited

/-- The distinguishable error outcomes of the database layer:
`database.ErrAlreadyExists`, `database.ErrDoesNotExist`, the
`errors.New("session expired")` error of `IsValidSession`, the wrapped
`sql.ErrNoRows` scan failure of `IsValidSession` ("unable to scan row"), and
a driver-level UNIQUE/PRIMARY-KEY constraint failure on an `INSERT`. -/
inductive DBError
  | alreadyExists
  | doesNotExist
  | sessionExpired
  | scanNoRows
  | uniqueConstraintFailed
deriving DecidableEq, Repr

instance {ε α : Type} [DecidableEq ε] [DecidableEq α] : DecidableEq (Except ε α)
  | .error e, .error f =>
    if h : e = f then .isTrue (by rw [h]) else
      .isFalse (by intro hc; cases hc; exact h rfl)
  | .error _, .ok _ => .isFalse (by intro hc; cases hc)
  | .ok _, .error _ => .isFalse (by intro hc; cases hc)
  | .ok a, .ok b =>
    if h : a = b then .isTrue (by rw [h]) else
      .isFalse (by intro hc; cases hc; exact h rfl)

/-! ## Row-level helpers (SQL statement semantics) -/

/-- `scanIncident`: builds an `incident.Incident` from one `incidents` row;
the stored resolution label is decoded through `Resolution_value` (a missing
label yields the map's zero default). -/
def scanIncident (r : IncidentRow) : Incident :=
  { id := r.id
    timestamp := r.timestamp
    description := r.description
    coordinates := { lat := r.lat, lon := r.lon }
    resolution := resolutionOfValue (resolutionValueLookup r.resolution)
    imageId := r.image
    reviewerComments := [] }

/-- `hasIncident`: runs `SELECT id FROM incidents WHERE id=?` (`QueryRow`
returns the first matching row; `sql.ErrNoRows` means absent) and compares
the scanned id with the requested one. -/
def hasIncident (s : DBState) (id : String) : Bool :=
  match s.incidents.find? (fun r => r.id = id) with
  | none => false
  | some r => id = r.id

/-- `SaveIncident`: one transaction that checks existence by id, fails with
`database.ErrAlreadyExists` if found, otherwise inserts the row
(`saveIncidentQuery`), storing `inc.Resolution.String()`. -/
def SaveIncident (s : DBState) (inc : Incident) : Except DBError DBState :=
  if hasIncident s inc.id then .error .alreadyExists
  else .ok { s with incidents := s.incidents ++
    [{ id := inc.id
       timestamp := inc.timestamp
       description := inc.description
       lat := inc.coordinates.lat
       lon := inc.coordinates.lon
       resolution := resolutionString inc.resolution
       image := inc.imageId }] }

/-- `SaveReview`: one transaction that checks existence (failing with
`database.ErrDoesNotExist`), runs `updateResolutionQuery`
(`UPDATE incidents SET resolution=? WHERE id=?`) and inserts one comment row
(`saveCommentQuery`) under the freshly generated `uuid.New().String()`,
passed here as `genId`.  The `comments.id` primary key rejects a colliding
id, rolling the transaction back. -/
def SaveReview (s : DBState) (genId : String) (id : String) (res : Resolution)
    (comment : Comment) : Except DBError DBState :=
  if ¬ hasIncident s id then .error .doesNotExist
  else if s.comments.any (fun c => c.id = genId) then .error .uniqueConstraintFailed
  else .ok
    { s with
      incidents := s.incidents.map (fun r =>
        if r.id = id then { r with resolution := resolutionString res } else r)
      comments := s.comments ++
        [{ id := genId
           incident_id := id
           timestamp := comment.timestamp
           author := comment.authorId
           comment := comment.message
           resolution := resolutionString res }] }

/-- `IncidentsWithoutReview`: `SELECT * FROM incidents WHERE resolution=?`
with parameter `Resolution_RESOLUTION_UNSPECIFIED.String()`; every fetched
row goes through `scanIncident`. -/
def IncidentsWithoutReview (s : DBState) : Except DBError (List Incident) :=
  .ok (((s.incidents.filter
    (fun r => r.resolution = resolutionString .RESOLUTION_UNSPECIFIED))).map scanIncident)

/-- `IncidentsInRadius`: `incidentsInRadiusQuery` fetches every row whose
resolution label is `RESOLUTION_ACCEPTED` or `RESOLUTION_ALERTED`, then
`slices.DeleteFunc` removes every incident whose `distance` from the center
exceeds `radius`.  The pure `distance(lat1, lon1, lat2, lon2)` helper of the
package is not under `src/`; modelled from the spec (§4.2 Geo Utility: a pure
four-argument distance function) it is passed here as the parameter `dist`. -/
def IncidentsInRadius (dist : ℚ → ℚ → ℚ → ℚ → ℚ) (s : DBState)
    (center : Coordinates) (radius : ℚ) : Except DBError (List Incident) :=
  let fetched := ((s.incidents.filter (fun r =>
    r.resolution = resolutionString .RESOLUTION_ACCEPTED ∨
    r.resolution = resolutionString .RESOLUTION_ALERTED))).map scanIncident
  .ok (fetched.filter (fun i =>
    ¬ dist center.lat center.lon i.coordinates.lat i.coordinates.lon > radius))

/-- `viewer.Region` protobuf message.  Modelled from the spec: the generated
code is not in this repository; §3/§116 describe an axis-aligned box supplied
in a scaled integer encoding, so the four bounds are integers. -/
structure Region where
  north : Int
  south : Int
  west : Int
  east : Int
deriving DecidableEq, Repr, Inhabited

/-- `IncidentsInRegion`: `incidentsInRegionQuery` keeps the rows with
resolution `RESOLUTION_ACCEPTED` or `RESOLUTION_ALERTED`, `timestamp > since`,
`lat < north`, `lat > south`, `lon > west`, `lon < east`, where the four bound
parameters are the Go integer quotients `region.North/100` etc. -/
def IncidentsInRegion (s : DBState) (since : Int) (region : Region) :
    Except DBError (List Incident) :=
  let n := region.north.tdiv 100
  let so := region.south.tdiv 100
  let w := region.west.tdiv 100
  let e := region.east.tdiv 100
  .ok (((s.incidents.filter (fun r =>
    (r.resolution = resolutionString .RESOLUTION_ACCEPTED ∨
     r.resolution = resolutionString .RESOLUTION_ALERTED) ∧
    r.timestamp > since ∧
    r.lat < (n : ℚ) ∧ r.lat > (so : ℚ) ∧
    r.lon > (w : ℚ) ∧ r.lon < (e : ℚ)))).map scanIncident)

/-- `AlertingIncidents`: `alertingIncidentsQuery` — same shape as
`IncidentsInRegion` but restricted to resolution `RESOLUTION_ALERTED`. -/
def AlertingIncidents (s : DBState) (since : Int) (region : Region) :
    Except DBError (List Incident) :=
  let n := region.north.tdiv 100
  let so := region.south.tdiv 100
  let w := region.west.tdiv 100
  let e := region.east.tdiv 100
  .ok (((s.incidents.filter (fun r =>
    r.resolution = resolutionString .RESOLUTION_ALERTED ∧
    r.timestamp > since ∧
    r.lat < (n : ℚ) ∧ r.lat > (so : ℚ) ∧
    r.lon > (w : ℚ) ∧ r.lon < (e : ℚ)))).map scanIncident)

/-- `SaveSession`: computes `expiry = time.Now().Add(1 * time.Hour)` and runs
`INSERT INTO sessions (id, expiry) VALUES (?, ?)` with `expiry.Unix()`.
`now` is the current unix time in seconds.  There is no existence pre-check,
but `sessions.id` is declared `TEXT PRIMARY KEY` in `createTableQuery`, so the
driver rejects an insert for an already stored token. -/
def SaveSession (s : DBState) (now : Int) (session : String) :
    Except DBError DBState :=
  let expiry := now + 3600
  if s.sessions.any (fun r => r.id = session) then .error .uniqueConstraintFailed
  else .ok { s with sessions := s.sessions ++ [{ id := session, expiry := expiry }] }

/-- `IsValidSession`: `SELECT expiry FROM sessions WHERE id=?`; a missing row
makes `row.Scan` return `sql.ErrNoRows` (wrapped: "unable to scan row"),
otherwise the session is expired iff `time.Since(expiry) > 0`, i.e. iff
`now > expiry`.  Success returns `nil`.  The operation runs no write
statement. -/
def IsValidSession (s : DBState) (now : Int) (session : String) :
    Except DBError Unit :=
  match s.sessions.find? (fun r => r.id = session) with
  | none => .error .scanNoRows
  | some r => if now > r.expiry then .error .sessionExpired else .ok ()

/-! ## Go `sort.Sort` on `ByTimestamp`

`ViewIncident` sorts the fetched comments with `sort.Sort(ByTimestamp(...))`.
`ByTimestamp.Less(i, j)` is `s[i].Timestamp < s[j].Timestamp` (sqldatabase.go),
and `sort.Sort` is the Go standard library's pattern-defeating quicksort
(`src/sort/sort.go` + `zsortinterface.go`, Go ≥ 1.19), transcribed below over
a `List Comment` indexed positionally.  `lswap`/`lget` model `Swap`/element
access; indices stay in bounds on every path the algorithm takes (Go would
panic otherwise), and out-of-bounds accesses are completed harmlessly
(`lswap` is the identity, `lget` a default).  Loops whose counters can cross
zero in Go use `Int` indices; the remaining loops recurse on a measure or on
generous fuel (each Go loop provably performs fewer iterations than the fuel
supplied at the call site). -/

/-- Element access (`data[i]`). -/
def lget (l : List Comment) (i : Nat) : Comment :=
  l.getD i default

/-- `ByTimestamp.Less(i, j)`: `s[i].Timestamp < s[j].Timestamp`. -/
def lless (l : List Comment) (i j : Nat) : Bool :=
  decide ((lget l i).timestamp < (lget l j).timestamp)

/-- `ByTimestamp.Swap(i, j)` (Go `s[i], s[j] = s[j], s[i]`). -/
def lswap (l : List Comment) (i j : Nat) : List Comment :=
  if i < l.length ∧ j < l.length then (l.set i (lget l j)).set j (lget l i) else l

/-- `Less` at `Int` positions (used by the `Int`-indexed scan loops; on the
reachable paths the indices are non-negative). -/
def illess (l : List Comment) (i j : Int) : Bool :=
  lless l i.toNat j.toNat

/-- `insertionSort` inner loop: `for j := i; j > a && Less(j, j-1); j--`. -/
def insertionSortInner (a : Nat) : List Comment → Nat → List Comment
  | l, 0 => l
  | l, j+1 =>
    if a < j + 1 ∧ lless l (j+1) j then insertionSortInner a (lswap l (j+1) j) j
    else l

/-- `insertionSort` outer loop: `for i := a + 1; i < b; i++` (the loop runs at
most `b` times, so the `b + 1` fuel supplied below is never exhausted; every
recursion in this development is structural so that concrete runs reduce
inside the kernel). -/
def insertionSortLoop (a b : Nat) : List Comment → Nat → Nat → List Comment
  | l, _i, 0 => l
  | l, i, fuel+1 =>
    if i < b then insertionSortLoop a b (insertionSortInner a l i) (i+1) fuel else l

/-- Go `insertionSort(data, a, b)`. -/
def insertionSort (l : List Comment) (a b : Nat) : List Comment :=
  insertionSortLoop a b l (a+1) (b+1)

/-- `siftDown`'s loop; `root` at least doubles each iteration, so `hi` fuel
is more than enough. -/
def siftDownLoop (hi first : Nat) : List Comment → Nat → Nat → List Comment
  | l, _root, 0 => l
  | l, root, fuel+1 =>
    let child := 2*root + 1
    if child ≥ hi then l
    else
      let child := if child + 1 < hi ∧ lless l (first+child) (first+child+1)
        then child + 1 else child
      if ¬ lless l (first+root) (first+child) then l
      else siftDownLoop hi first (lswap l (first+root) (first+child)) child fuel

/-- Go `siftDown(data, lo, hi, first)`. -/
def siftDown (l : List Comment) (lo hi first : Nat) : List Comment :=
  siftDownLoop hi first l lo (hi+1)

/-- `heapSort`'s build loop: `for i := (hi-1)/2; i >= 0; i--`. -/
def heapSortBuild (hi first : Nat) : List Comment → Nat → List Comment
  | l, 0 => siftDown l 0 hi first
  | l, i+1 => heapSortBuild hi first (siftDown l (i+1) hi first) i

/-- `heapSort`'s pop loop: `for i := hi-1; i >= 0; i--` with body
`Swap(first, first+i); siftDown(data, lo, i, first)` (here `lo = 0`). -/
def heapSortPop (first : Nat) : List Comment → Nat → List Comment
  | l, 0 => siftDown (lswap l first first) 0 0 first
  | l, i+1 => heapSortPop first (siftDown (lswap l first (first+i+1)) 0 (i+1) first) i

/-- Go `heapSort(data, a, b)`.  (`pdqsort` only calls it with `b - a > 12`;
for an empty range the Go pop loop would not run, hence the guard.) -/
def heapSort (l : List Comment) (a b : Nat) : List Comment :=
  let first := a
  let hi := b - a
  let l₁ := heapSortBuild hi first l ((hi - 1) / 2)
  if hi = 0 then l₁ else heapSortPop first l₁ (hi - 1)

/-- Go `reverseRange(data, a, b)`: `i, j := a, b-1; for i < j { Swap; i++; j-- }`
(at most `b` iterations, fuel `b + 1`). -/
def reverseRangeLoop : List Comment → Nat → Nat → Nat → List Comment
  | l, _i, _j, 0 => l
  | l, i, j, fuel+1 =>
    if i < j then reverseRangeLoop (lswap l i j) (i+1) (j-1) fuel else l

/-- Go `reverseRange(data, a, b)`. -/
def reverseRange (l : List Comment) (a b : Nat) : List Comment :=
  reverseRangeLoop l a (b - 1) (b + 1)

/-- `2^64`, the modulus of Go's `uint64` arithmetic. -/
def u64Mod : Nat := 18446744073709551616

/-- Go `sort`'s `xorshift.Next`: `*r ^= *r << 13; *r ^= *r >> 7;
*r ^= *r << 17` on `uint64`. -/
def xorshiftNext (r : Nat) : Nat :=
  let r := r ^^^ ((r <<< 13) % u64Mod)
  let r := r ^^^ (r >>> 7)
  let r := r ^^^ ((r <<< 17) % u64Mod)
  r

/-- Halving loop for `bits.Len`; the fuel (`n + 1` at the call site) always
dominates the number of halvings needed to reach `0`. -/
def goBitsLenAux : Nat → Nat → Nat
  | 0, _ => 0
  | fuel+1, n => if n = 0 then 0 else goBitsLenAux fuel (n / 2) + 1

/-- Go `bits.Len` (number of bits; `bits.Len 0 = 0`). -/
def goBitsLen (n : Nat) : Nat :=
  goBitsLenAux (n + 1) n

/-- Go `sort`'s `nextPowerOfTwo(length) = 1 << bits.Len(uint(length))`. -/
def nextPowerOfTwo (length : Nat) : Nat :=
  1 <<< goBitsLen length

/-- One iteration of `breakPatterns`' 3-step loop: draw from the xorshift
generator, mask by `modulus-1`, reduce below `length`, swap. -/
def breakPatternsStep (a length idx modulus : Nat) (st : List Comment × Nat)
    (i : Nat) : List Comment × Nat :=
  let random := xorshiftNext st.2
  let other := random &&& (modulus - 1)
  let other := if other ≥ length then other - length else other
  (lswap st.1 (idx - 1 + i) (a + other), random)

/-- Go `breakPatterns(data, a, b)` (seed `xorshift(length)`). -/
def breakPatterns (l : List Comment) (a b : Nat) : List Comment :=
  let length := b - a
  if length ≥ 8 then
    let modulus := nextPowerOfTwo length
    let idx := a + (length / 4) * 2 - 1
    let st := breakPatternsStep a length idx modulus (l, length) 0
    let st := breakPatternsStep a length idx modulus st 1
    let st := breakPatternsStep a length idx modulus st 2
    st.1
  else l

/-- The three `sortedHint` values of Go `sort`. -/
inductive SortedHint
  | increasingHint
  | decreasingHint
  | unknownHint
deriving DecidableEq, Repr

/-- Go `sort`'s `order2`: orders two indices, counting comparisons that
required a swap. -/
def order2 (l : List Comment) (a b swaps : Nat) : Nat × Nat × Nat :=
  if lless l b a then (b, a, swaps + 1) else (a, b, swaps)

/-- Go `sort`'s `median`: index of the median of three, threading `swaps`. -/
def median (l : List Comment) (a b c swaps : Nat) : Nat × Nat :=
  match order2 l a b swaps with
  | (a, b, swaps) =>
    match order2 l b c swaps with
    | (b, _c, swaps) =>
      match order2 l a b swaps with
      | (_a, b, swaps) => (b, swaps)

/-- Go `sort`'s `medianAdjacent`: median of `data[a-1], data[a], data[a+1]`. -/
def medianAdjacent (l : List Comment) (a swaps : Nat) : Nat × Nat :=
  median l (a - 1) a (a + 1) swaps

/-- Map the final swap count to a hint (`0` ↦ increasing, `maxSwaps = 12` ↦
decreasing). -/
def hintOfSwaps (swaps : Nat) : SortedHint :=
  if swaps = 0 then .increasingHint
  else if swaps = 12 then .decreasingHint
  else .unknownHint

/-- Go `sort`'s `choosePivot(data, a, b)`: median (or ninther for length ≥ 50)
of positions `a + l/4*1`, `a + l/4*2`, `a + l/4*3`. -/
def choosePivot (l : List Comment) (a b : Nat) : Nat × SortedHint :=
  let length := b - a
  let i := a + length / 4 * 1
  let j := a + length / 4 * 2
  let k := a + length / 4 * 3
  if length ≥ 8 then
    if length ≥ 50 then
      match medianAdjacent l i 0 with
      | (i, swaps) =>
        match medianAdjacent l j swaps with
        | (j, swaps) =>
          match medianAdjacent l k swaps with
          | (k, swaps) =>
            match median l i j k swaps with
            | (j, swaps) => (j, hintOfSwaps swaps)
    else
      match median l i j k 0 with
      | (j, swaps) => (j, hintOfSwaps swaps)
  else (j, hintOfSwaps 0)

/-- `partialInsertionSort`'s read-only scan `for i < b && !Less(i, i-1) { i++ }`
(at most `b` iterations, fuel `b + 1`). -/
def pisScan (l : List Comment) (b : Nat) : Nat → Nat → Nat
  | i, 0 => i
  | i, fuel+1 =>
    if i < b ∧ ¬ lless l i (i - 1) then pisScan l b (i+1) fuel else i

/-- `partialInsertionSort`'s left shift:
`for j := i - 1; j >= 1; j-- { if !Less(j, j-1) { break }; Swap(j, j-1) }`. -/
def pisShiftLeft : List Comment → Nat → List Comment
  | l, 0 => l
  | l, j+1 =>
    if ¬ lless l (j+1) j then l else pisShiftLeft (lswap l (j+1) j) j

/-- `partialInsertionSort`'s right shift:
`for j := i + 1; j < b; j++ { if !Less(j, j-1) { break }; Swap(j, j-1) }`. -/
def pisShiftRight (b : Nat) : List Comment → Nat → Nat → List Comment
  | l, _j, 0 => l
  | l, j, fuel+1 =>
    if j < b then
      if ¬ lless l j (j - 1) then l
      else pisShiftRight b (lswap l j (j - 1)) (j + 1) fuel
    else l

/-- Go `sort`'s `partialInsertionSort(data, a, b)` main loop (`maxSteps = 5`
attempts, `shortestShifting = 50`); returns the modified data and whether the
range ended up sorted. -/
def partialInsertionSortLoop (a b : Nat) : List Comment → Nat → Nat → List Comment × Bool
  | l, _i, 0 => (l, false)
  | l, i, steps+1 =>
    let i := pisScan l b i (b + 1)
    if i = b then (l, true)
    else if b - a < 50 then (l, false)
    else
      let l := lswap l i (i - 1)
      let l := if i - a ≥ 2 then pisShiftLeft l (i - 1) else l
      let l := if b - i ≥ 2 then pisShiftRight b l (i + 1) (b + 1) else l
      partialInsertionSortLoop a b l i steps

/-- Go `sort`'s `partialInsertionSort(data, a, b)`. -/
def partialInsertionSort (l : List Comment) (a b : Nat) : List Comment × Bool :=
  partialInsertionSortLoop a b l (a + 1) 5

/-- `partition`'s left scan `for i <= j && Less(i, a) { i++ }` (pivot at `a`;
the scan takes at most `j + 1 - i` steps, within the fuel its caller
computes). -/
def partitionScanI (l : List Comment) (a : Nat) (j : Int) : Int → Nat → Int
  | i, 0 => i
  | i, fuel+1 =>
    if i ≤ j ∧ illess l i a then partitionScanI l a j (i + 1) fuel else i

/-- `partition`'s right scan `for i <= j && !Less(j, a) { j-- }`. -/
def partitionScanJ (l : List Comment) (a : Nat) (i : Int) : Int → Nat → Int
  | j, 0 => j
  | j, fuel+1 =>
    if i ≤ j ∧ ¬ illess l j a then partitionScanJ l a i (j - 1) fuel else j

/-- `partition`'s swap loop (scan, `if i > j break`, `Swap(i, j); i++; j--`);
each iteration strictly shrinks `j - i`, so the fuel passed by `partition`
(`b + 1`) is more than enough. -/
def partitionLoop (a : Nat) : List Comment → Int → Int → Nat → List Comment × Int
  | l, _i, j, 0 => (l, j)
  | l, i, j, fuel+1 =>
    let i := partitionScanI l a j i ((j + 1 - i).toNat + 1)
    let j := partitionScanJ l a i j ((j + 1 - i).toNat + 1)
    if i > j then (l, j)
    else partitionLoop a (lswap l i.toNat j.toNat) (i + 1) (j - 1) fuel

/-- Go `sort`'s `partition(data, a, b, pivot)`: moves the pivot to `a`,
partitions `[a+1, b)`, puts the pivot back at the returned position; also
reports whether the range was already partitioned. -/
def partition (l : List Comment) (a b pivot : Nat) : List Comment × Nat × Bool :=
  let l := lswap l a pivot
  let i : Int := (a : Int) + 1
  let j : Int := (b : Int) - 1
  let i := partitionScanI l a j i ((j + 1 - i).toNat + 1)
  let j := partitionScanJ l a i j ((j + 1 - i).toNat + 1)
  if i > j then
    (lswap l j.toNat a, j.toNat, true)
  else
    let l := lswap l i.toNat j.toNat
    let res := partitionLoop a l (i + 1) (j - 1) (b + 1)
    (lswap res.1 res.2.toNat a, res.2.toNat, false)

/-- `partitionEqual`'s left scan `for i <= j && !Less(a, i) { i++ }`. -/
def peScanI (l : List Comment) (a : Nat) (j : Int) : Int → Nat → Int
  | i, 0 => i
  | i, fuel+1 =>
    if i ≤ j ∧ ¬ illess l a i then peScanI l a j (i + 1) fuel else i

/-- `partitionEqual`'s right scan `for i <= j && Less(a, j) { j-- }`. -/
def peScanJ (l : List Comment) (a : Nat) (i : Int) : Int → Nat → Int
  | j, 0 => j
  | j, fuel+1 =>
    if i ≤ j ∧ illess l a j then peScanJ l a i (j - 1) fuel else j

/-- `partitionEqual`'s swap loop; fuel as in `partitionLoop`. -/
def partitionEqualLoop (a : Nat) : List Comment → Int → Int → Nat → List Comment × Int
  | l, i, _j, 0 => (l, i)
  | l, i, j, fuel+1 =>
    let i := peScanI l a j i ((j + 1 - i).toNat + 1)
    let j := peScanJ l a i j ((j + 1 - i).toNat + 1)
    if i > j then (l, i)
    else partitionEqualLoop a (lswap l i.toNat j.toNat) (i + 1) (j - 1) fuel

/-- Go `sort`'s `partitionEqual(data, a, b, pivot)`: groups the elements equal
to the pivot at the front, returning the first index past them. -/
def partitionEqual (l : List Comment) (a b pivot : Nat) : List Comment × Nat :=
  let l := lswap l a pivot
  let res := partitionEqualLoop a l ((a : Int) + 1) ((b : Int) - 1) (b + 1)
  (res.1, res.2.toNat)

/-- `pdqsort` loop body, breaking-patterns phase:
`if !wasBalanced { breakPatterns(data, a, b); limit-- }` (data part). -/
def pdqPrep (l : List Comment) (a b : Nat) (wasBalanced : Bool) : List Comment :=
  if ¬ wasBalanced then breakPatterns l a b else l

/-- `pdqsort` loop body, pivot phase: `choosePivot` followed by
`if hint == decreasingHint { reverseRange(data, a, b);
pivot = (b-1)-(pivot-a); hint = increasingHint }`; returns the (possibly
reversed) data, the pivot index and the final hint. -/
def pdqPivot (l : List Comment) (a b : Nat) : List Comment × Nat × SortedHint :=
  let cp := choosePivot l a b
  if cp.2 = SortedHint.decreasingHint then
    (reverseRange l a b, (b - 1) - (cp.1 - a), SortedHint.increasingHint)
  else (l, cp.1, cp.2)

/-- `pdqsort` loop body, likely-sorted phase:
`if wasBalanced && wasPartitioned && hint == increasingHint {
if partialInsertionSort(data, a, b) { return } }`; returns the data and
whether the early return fires. -/
def pdqPis (l : List Comment) (a b : Nat) (wasBalanced wasPartitioned : Bool)
    (hint : SortedHint) : List Comment × Bool :=
  if wasBalanced ∧ wasPartitioned ∧ hint = SortedHint.increasingHint then
    partialInsertionSort l a b
  else (l, false)

/-- Go `sort`'s `pdqsort(data, a, b, limit)`.  The Go function is an iterative
loop (carrying `wasBalanced`/`wasPartitioned`) plus one recursive call on the
shorter side; both the loop step and the recursion consume fuel here.  Every
loop iteration shrinks `b - a` and every recursive call runs on a strictly
shorter range, so the call tree has depth at most `n` with at most `n`
steps per level: the `(n+2)^2` fuel supplied by `goSort` is never
exhausted. -/
def pdqsortLoop : List Comment → Nat → Nat → Nat → Bool → Bool → Nat → List Comment
  | l, _a, _b, _limit, _wasBalanced, _wasPartitioned, 0 => l
  | l, a, b, limit, wasBalanced, wasPartitioned, fuel+1 =>
    let length := b - a
    if length ≤ 12 then insertionSort l a b
    else if limit = 0 then heapSort l a b
    else
      let l := pdqPrep l a b wasBalanced
      let limit := if ¬ wasBalanced then limit - 1 else limit
      let pv := pdqPivot l a b
      let l := pv.1
      let pivot := pv.2.1
      let hint := pv.2.2
      let pis := pdqPis l a b wasBalanced wasPartitioned hint
      let l := pis.1
      if pis.2 then l
      else if a > 0 ∧ ¬ lless l (a - 1) pivot then
        let pe := partitionEqual l a b pivot
        pdqsortLoop pe.1 pe.2 b limit wasBalanced wasPartitioned fuel
      else
        let pr := partition l a b pivot
        let l := pr.1
        let mid := pr.2.1
        let wasPartitioned := pr.2.2
        let leftLen := mid - a
        let rightLen := b - mid
        let balanceThreshold := length / 8
        let wasBalanced := decide (min leftLen rightLen ≥ balanceThreshold)
        if leftLen < rightLen then
          pdqsortLoop (pdqsortLoop l a mid limit true true fuel)
            (mid + 1) b limit wasBalanced wasPartitioned fuel
        else
          pdqsortLoop (pdqsortLoop l (mid + 1) b limit true true fuel)
            a mid limit wasBalanced wasPartitioned fuel

/-- Go `sort.Sort(data)`: `if n <= 1 return; pdqsort(data, 0, n, bits.Len(n))`. -/
def goSort (l : List Comment) : List Comment :=
  let n := l.length
  if n ≤ 1 then l
  else pdqsortLoop l 0 n (goBitsLen n) true true ((n + 2) * (n + 2))

/-- `ViewIncident`: fetches the incident row (`sql.ErrNoRows` ↦
`database.ErrDoesNotExist`), fetches its comments
(`SELECT * FROM comments WHERE incident_id=?`, rowid order), scanning only
timestamp/author/message (the `id`, `incident_id` and `resolution` columns go
to `discard`), appends them to the incident and sorts them with
`sort.Sort(ByTimestamp(...))`. -/
def ViewIncident (s : DBState) (id : String) : Except DBError Incident :=
  match s.incidents.find? (fun r => r.id = id) with
  | none => .error .doesNotExist
  | some row =>
    let inc := scanIncident row
    let fetched := (s.comments.filter (fun c => c.incident_id = id)).map
      (fun c => { timestamp := c.timestamp
                  authorId := c.author
                  message := c.comment
                  resolution := Resolution.RESOLUTION_UNSPECIFIED : Comment })
    .ok { inc with reviewerComments := goSort (inc.reviewerComments ++ fetched) }

/-! ## Property vocabulary -/

/-- The spec's ordering property for `View`: every adjacent pair of returned
comments is non-decreasing by timestamp. -/
def nonDecreasingTs : List Comment → Bool
  | [] => true
  | [_] => true
  | x :: y :: rest => (decide (x.timestamp ≤ y.timestamp)) && nonDecreasingTs (y :: rest)

/-- Result of a transaction against a state: a committed transaction yields
the new state, a failed one is rolled back, leaving the state unchanged. -/
def applyTx (s : DBState) (r : Except DBError DBState) : DBState :=
  match r with
  | .ok s' => s'
  | .error _ => s

/-- The row list of a successful list query (all list queries in this model
always succeed; errors would yield `[]`). -/
def okList (e : Except DBError (List Incident)) : List Incident :=
  match e with
  | .ok out => out
  | .error _ => []

/-- The timestamps of the comments `ViewIncident` returns, in order. -/
def viewCommentTimestamps (s : DBState) (id : String) : List Int :=
  match ViewIncident s id with
  | .ok inc => inc.reviewerComments.map (fun c => c.timestamp)
  | .error _ => []

/-! ## Concrete example data used by witnesses and counterexamples -/

def exC2inc : Incident :=
  { id := "inc-1", timestamp := 10, description := "d",
    coordinates := { lat := 1, lon := 2 },
    resolution := .RESOLUTION_UNSPECIFIED, imageId := "img", reviewerComments := [] }

def exC2state : DBState :=
  { incidents := [{ id := "inc-1", timestamp := 10, description := "d",
                    lat := 1, lon := 2,
                    resolution := "RESOLUTION_UNSPECIFIED", image := "img" }],
    comments := [], sessions := [] }

def exC3rowS : IncidentRow :=
  { id := "s", timestamp := 100, description := "", lat := 0, lon := 5,
    resolution := "RESOLUTION_ACCEPTED", image := "" }

def exC3rowN : IncidentRow :=
  { id := "n", timestamp := 100, description := "", lat := 10, lon := 5,
    resolution := "RESOLUTION_ACCEPTED", image := "" }

def exC3state : DBState := ⟨[exC3rowS, exC3rowN], [], []⟩

def exC3region : Region := { north := 1000, south := 0, west := -1000, east := 1000 }

def exC4incRow : IncidentRow :=
  { id := "i1", timestamp := 0, description := "", lat := 0, lon := 0,
    resolution := "RESOLUTION_UNSPECIFIED", image := "" }

def exC4commentRows : List CommentRow :=
  ((List.range 12).map (fun i =>
    { id := s!"k{i}", incident_id := "i1", timestamp := 2, author := s!"a{i}",
      comment := "", resolution := "RESOLUTION_ACCEPTED" : CommentRow })) ++
  [{ id := "k12", incident_id := "i1", timestamp := 1, author := "z",
     comment := "", resolution := "RESOLUTION_ACCEPTED" }]

def exC4state : DBState := ⟨[exC4incRow], exC4commentRows, []⟩

/-- Shorthand for the comments of the stability example. -/
def mkc (ts : Int) (a : String) : Comment :=
  { timestamp := ts, authorId := a, message := "",
    resolution := .RESOLUTION_UNSPECIFIED }

/-- The comments of `exC4state` in fetch (rowid) order. -/
def exC4fetched : List Comment :=
  [mkc 2 "a0", mkc 2 "a1", mkc 2 "a2", mkc 2 "a3", mkc 2 "a4", mkc 2 "a5",
   mkc 2 "a6", mkc 2 "a7", mkc 2 "a8", mkc 2 "a9", mkc 2 "a10", mkc 2 "a11",
   mkc 1 "z"]

/-- What `ViewIncident exC4state "i1"` actually returns. -/
def exC4result : List Comment :=
  [mkc 1 "z", mkc 2 "a6", mkc 2 "a2", mkc 2 "a3", mkc 2 "a4", mkc 2 "a5",
   mkc 2 "a0", mkc 2 "a7", mkc 2 "a8", mkc 2 "a9", mkc 2 "a10", mkc 2 "a11",
   mkc 2 "a1"]

def exC4inc : Incident :=
  { id := "i1", timestamp := 0, description := "", coordinates := ⟨0, 0⟩,
    resolution := .RESOLUTION_UNSPECIFIED, imageId := "",
    reviewerComments := exC4result }

def exC4sorted3state : DBState :=
  ⟨[exC4incRow],
   [{ id := "m1", incident_id := "i1", timestamp := 300, author := "p",
      comment := "c1", resolution := "RESOLUTION_ACCEPTED" },
    { id := "m2", incident_id := "i1", timestamp := 100, author := "q",
      comment := "c2", resolution := "RESOLUTION_ACCEPTED" },
    { id := "m3", incident_id := "i1", timestamp := 200, author := "s",
      comment := "c3", resolution := "RESOLUTION_ACCEPTED" }], []⟩

def exC4sorted3inc : Incident :=
  { id := "i1", timestamp := 0, description := "", coordinates := ⟨0, 0⟩,
    resolution := .RESOLUTION_UNSPECIFIED, imageId := "",
    reviewerComments :=
      [⟨100, "q", "c2", .RESOLUTION_UNSPECIFIED⟩,
       ⟨200, "s", "c3", .RESOLUTION_UNSPECIFIED⟩,
       ⟨300, "p", "c1", .RESOLUTION_UNSPECIFIED⟩] }

def exC5c : Comment := ⟨50, "alice", "ok", .RESOLUTION_UNSPECIFIED⟩

def exC5after : DBState :=
  { incidents := [{ id := "inc-1", timestamp := 10, description := "d",
                    lat := 1, lon := 2,
                    resolution := "RESOLUTION_ACCEPTED", image := "img" }],
    comments := [{ id := "uuid-1", incident_id := "inc-1", timestamp := 50,
                   author := "alice", comment := "ok",
                   resolution := "RESOLUTION_ACCEPTED" }],
    sessions := [] }

def exC5inc : Incident :=
  { id := "inc-1", timestamp := 10, description := "d",
    coordinates := { lat := 1, lon := 2 },
    resolution := .RESOLUTION_ACCEPTED, imageId := "img",
    reviewerComments := [⟨50, "alice", "ok", .RESOLUTION_UNSPECIFIED⟩] }

/-- A concrete planar distance stand-in used only by the C6 witness. -/
def exC6dist (lat1 lon1 lat2 lon2 : ℚ) : ℚ :=
  (lat2 - lat1) * (lat2 - lat1) + (lon2 - lon1) * (lon2 - lon1)

def exC7rowA : IncidentRow :=
  { id := "a", timestamp := 1, description := "", lat := 5, lon := 5,
    resolution := "RESOLUTION_ACCEPTED", image := "" }

def exC7rowB : IncidentRow :=
  { id := "b", timestamp := 1, description := "", lat := 5, lon := 5,
    resolution := "RESOLUTION_ALERTED", image := "" }

def exC7state : DBState := ⟨[exC7rowA, exC7rowB], [], []⟩

def exC8state : DBState :=
  { incidents := [], comments := [],
    sessions := [{ id := "tok", expiry := 100 }] }

def exC9dup : DBState :=
  { incidents := [], comments := [],
    sessions := [{ id := "t", expiry := 3600 }] }

def exC10row : IncidentRow :=
  { id := "b1", timestamp := 3, description := "", lat := 0, lon := 0,
    resolution := "bogus", image := "" }

def exC10state : DBState := ⟨[exC10row], [], []⟩

/-- A computation that only swaps positions inside `[a, b)`. -/
inductive SwapSeq (a b : Nat) : List Comment → List Comment → Prop
  | refl (l : List Comment) : SwapSeq a b l l
  | step {l l' : List Comment} (i j : Nat) (hia : a ≤ i) (hib : i < b)
      (hja : a ≤ j) (hjb : j < b)
      (h : SwapSeq a b (lswap l i j) l') : SwapSeq a b l l'

/-- Adjacent-pairs sortedness of the positions `[a, b)`. -/
def adjSorted (l : List Comment) (a b : Nat) : Prop :=
  ∀ k, a ≤ k → k + 1 < b → (lget l k).timestamp ≤ (lget l (k+1)).timestamp

/-- Positions `[lo, hi)` hold keys strictly below the key at `a`. -/
def ltZone (l : List Comment) (a : Nat) (lo hi : Int) : Prop :=
  ∀ m : Int, lo ≤ m → m < hi → lless l m.toNat a = true

/-- Positions `(lo, hi)` hold keys at least the key at `a`. -/
def geZone (l : List Comment) (a : Nat) (lo hi : Int) : Prop :=
  ∀ m : Int, lo < m → m < hi → ¬ lless l m.toNat a = true

/-- Positions `[lo, hi)` hold keys at most the key at `a`. -/
def leZone (l : List Comment) (a : Nat) (lo hi : Int) : Prop :=
  ∀ m : Int, lo ≤ m → m < hi → ¬ lless l a m.toNat = true

/-- Positions `(lo, hi)` hold keys strictly above the key at `a`. -/
def gtZone (l : List Comment) (a : Nat) (lo hi : Int) : Prop :=
  ∀ m : Int, lo < m → m < hi → lless l a m.toNat = true

/-- In quicksort's recursion every element of the working range `[a, b)` is at
least the element just left of the range (the previous pivot). -/
def leftBound (l : List Comment) (a b : Nat) : Prop :=
  0 < a → ∀ k, a ≤ k → k < b → (lget l (a-1)).timestamp ≤ (lget l k).timestamp

/-- Max-heap node condition for heap slot `r` of the region
`[first, first+hi)`: both children (when present) are at most the node. -/
def heapNode (l : List Comment) (first hi r : Nat) : Prop :=
  (2*r+1 < hi → (lget l (first+(2*r+1))).timestamp ≤ (lget l (first+r)).timestamp) ∧
  (2*r+2 < hi → (lget l (first+(2*r+2))).timestamp ≤ (lget l (first+r)).timestamp)

/-! ## General lemmas: Go `sort.Sort` permutes its input

Every mutation the transcribed sort performs goes through `lswap`, so each
helper returns a permutation of its input; chaining these gives
`goSort_perm`. -/

theorem lswap_perm (l : List Comment) (i j : Nat) : (lswap l i j).Perm l := by
  unfold lswap
  split
  case isTrue h =>
    obtain ⟨hi, hj⟩ := h
    have hj' : j < (l.set i (lget l j)).length := by simpa using hj
    rw [List.perm_iff_count]
    intro c
    rw [List.count_set _ _ _ _ hj', List.count_set _ _ _ _ hi]
    rw [List.getElem_set]
    have hgi : lget l i = l[i] := List.getD_eq_getElem l default hi
    have hgj : lget l j = l[j] := List.getD_eq_getElem l default hj
    by_cases hij : i = j
    · subst hij
      simp only [if_pos rfl, hgi, hgj]
      by_cases hc : l[i] = c
      · have : 0 < List.count c l := List.count_pos_iff.mpr (hc ▸ List.getElem_mem hi)
        simp [hc, beq_iff_eq]
        omega
      · simp [hc, beq_iff_eq]
    · rw [if_neg hij]
      by_cases hci : l[i] = c <;> by_cases hcj : l[j] = c
      · have : 0 < List.count c l := List.count_pos_iff.mpr (hci ▸ List.getElem_mem hi)
        simp [hgi, hgj, hci, hcj, beq_iff_eq]
        omega
      · have : 0 < List.count c l := List.count_pos_iff.mpr (hci ▸ List.getElem_mem hi)
        simp [hgi, hgj, hci, hcj, beq_iff_eq]
        omega
      · have : 0 < List.count c l := List.count_pos_iff.mpr (hcj ▸ List.getElem_mem hj)
        simp [hgi, hgj, hci, hcj, beq_iff_eq]
        try omega
      · simp [hgi, hgj, hci, hcj, beq_iff_eq]
  case isFalse h => exact List.Perm.refl _

theorem insertionSortInner_perm (a : Nat) : ∀ (j : Nat) (l : List Comment),
    (insertionSortInner a l j).Perm l
  | 0, l => by rw [insertionSortInner]
  | j+1, l => by
    rw [insertionSortInner]
    split
    · exact (insertionSortInner_perm a j _).trans (lswap_perm l (j+1) j)
    · exact .refl _

theorem insertionSortLoop_perm (a b : Nat) :
    ∀ (fuel : Nat) (l : List Comment) (i : Nat),
      (insertionSortLoop a b l i fuel).Perm l
  | 0, l, i => by rw [insertionSortLoop]
  | fuel+1, l, i => by
    rw [insertionSortLoop]
    split
    · exact (insertionSortLoop_perm a b fuel _ _).trans (insertionSortInner_perm a i l)
    · exact .refl _

theorem insertionSort_perm (l : List Comment) (a b : Nat) :
    (insertionSort l a b).Perm l :=
  insertionSortLoop_perm a b (b+1) l (a+1)

theorem siftDownLoop_perm (hi first : Nat) :
    ∀ (fuel : Nat) (l : List Comment) (root : Nat),
      (siftDownLoop hi first l root fuel).Perm l
  | 0, l, root => by rw [siftDownLoop]
  | fuel+1, l, root => by
    rw [siftDownLoop]
    dsimp only
    split
    · exact .refl _
    · split <;> split
      · exact .refl _
      · exact (siftDownLoop_perm hi first fuel _ _).trans (lswap_perm ..)
      · exact .refl _
      · exact (siftDownLoop_perm hi first fuel _ _).trans (lswap_perm ..)

theorem siftDown_perm (l : List Comment) (lo hi first : Nat) :
    (siftDown l lo hi first).Perm l :=
  siftDownLoop_perm hi first (hi+1) l lo

theorem heapSortBuild_perm (hi first : Nat) : ∀ (i : Nat) (l : List Comment),
    (heapSortBuild hi first l i).Perm l
  | 0, l => by rw [heapSortBuild]; exact siftDown_perm ..
  | i+1, l => by
    rw [heapSortBuild]
    exact (heapSortBuild_perm hi first i _).trans (siftDown_perm ..)

theorem heapSortPop_perm (first : Nat) : ∀ (i : Nat) (l : List Comment),
    (heapSortPop first l i).Perm l
  | 0, l => by
    rw [heapSortPop]
    exact (siftDown_perm ..).trans (lswap_perm ..)
  | i+1, l => by
    rw [heapSortPop]
    exact (heapSortPop_perm first i _).trans ((siftDown_perm ..).trans (lswap_perm ..))

theorem heapSort_perm (l : List Comment) (a b : Nat) : (heapSort l a b).Perm l := by
  rw [heapSort]
  split
  · exact heapSortBuild_perm ..
  · exact (heapSortPop_perm ..).trans (heapSortBuild_perm ..)

theorem reverseRangeLoop_perm :
    ∀ (fuel : Nat) (l : List Comment) (i j : Nat),
      (reverseRangeLoop l i j fuel).Perm l
  | 0, l, i, j => by rw [reverseRangeLoop]
  | fuel+1, l, i, j => by
    rw [reverseRangeLoop]
    split
    · exact (reverseRangeLoop_perm fuel _ _ _).trans (lswap_perm ..)
    · exact .refl _

theorem reverseRange_perm (l : List Comment) (a b : Nat) :
    (reverseRange l a b).Perm l :=
  reverseRangeLoop_perm (b+1) l a (b-1)

theorem breakPatternsStep_perm (a length idx modulus : Nat)
    (st : List Comment × Nat) (i : Nat) :
    (breakPatternsStep a length idx modulus st i).1.Perm st.1 := by
  rw [breakPatternsStep]
  dsimp only
  split <;> exact lswap_perm ..

theorem breakPatterns_perm (l : List Comment) (a b : Nat) :
    (breakPatterns l a b).Perm l := by
  rw [breakPatterns]
  dsimp only
  split
  · exact (breakPatternsStep_perm ..).trans
      ((breakPatternsStep_perm ..).trans (breakPatternsStep_perm ..))
  · exact .refl _

theorem pisShiftLeft_perm : ∀ (j : Nat) (l : List Comment),
    (pisShiftLeft l j).Perm l
  | 0, l => by rw [pisShiftLeft]
  | j+1, l => by
    rw [pisShiftLeft]
    split
    · exact .refl _
    · exact (pisShiftLeft_perm j _).trans (lswap_perm ..)

theorem pisShiftRight_perm (b : Nat) :
    ∀ (fuel : Nat) (l : List Comment) (j : Nat),
      (pisShiftRight b l j fuel).Perm l
  | 0, l, j => by rw [pisShiftRight]
  | fuel+1, l, j => by
    rw [pisShiftRight]
    split
    · split
      · exact .refl _
      · exact (pisShiftRight_perm b fuel _ _).trans (lswap_perm ..)
    · exact .refl _

theorem partialInsertionSortLoop_perm (a b : Nat) :
    ∀ (steps : Nat) (l : List Comment) (i : Nat),
      (partialInsertionSortLoop a b l i steps).1.Perm l
  | 0, l, i => by rw [partialInsertionSortLoop]
  | steps+1, l, i => by
    rw [partialInsertionSortLoop]
    dsimp only
    split
    · exact .refl _
    · split
      · exact .refl _
      · refine (partialInsertionSortLoop_perm a b steps _ _).trans ?_
        have h3 : (lswap l (pisScan l b i (b + 1)) (pisScan l b i (b + 1) - 1)).Perm l := lswap_perm ..
        have h2 : (if pisScan l b i (b + 1) - a ≥ 2 then
            pisShiftLeft (lswap l (pisScan l b i (b + 1)) (pisScan l b i (b + 1) - 1)) (pisScan l b i (b + 1) - 1)
          else lswap l (pisScan l b i (b + 1)) (pisScan l b i (b + 1) - 1)).Perm l := by
          split
          · exact (pisShiftLeft_perm ..).trans h3
          · exact h3
        split
        · exact (pisShiftRight_perm ..).trans h2
        · exact h2

theorem partialInsertionSort_perm (l : List Comment) (a b : Nat) :
    (partialInsertionSort l a b).1.Perm l :=
  partialInsertionSortLoop_perm a b 5 l (a+1)

theorem partitionLoop_perm (a : Nat) :
    ∀ (fuel : Nat) (l : List Comment) (i j : Int),
      (partitionLoop a l i j fuel).1.Perm l
  | 0, l, i, j => by rw [partitionLoop]
  | fuel+1, l, i, j => by
    rw [partitionLoop]
    split
    · exact .refl _
    · exact (partitionLoop_perm a fuel _ _ _).trans (lswap_perm ..)

theorem partition_perm (l : List Comment) (a b pivot : Nat) :
    (partition l a b pivot).1.Perm l := by
  rw [partition]
  dsimp only
  split
  · exact (lswap_perm ..).trans (lswap_perm ..)
  · exact ((lswap_perm ..).trans (partitionLoop_perm ..)).trans
      ((lswap_perm ..).trans (lswap_perm ..))

theorem partitionEqualLoop_perm (a : Nat) :
    ∀ (fuel : Nat) (l : List Comment) (i j : Int),
      (partitionEqualLoop a l i j fuel).1.Perm l
  | 0, l, i, j => by rw [partitionEqualLoop]
  | fuel+1, l, i, j => by
    rw [partitionEqualLoop]
    split
    · exact .refl _
    · exact (partitionEqualLoop_perm a fuel _ _ _).trans (lswap_perm ..)

theorem partitionEqual_perm (l : List Comment) (a b pivot : Nat) :
    (partitionEqual l a b pivot).1.Perm l := by
  rw [partitionEqual]
  exact (partitionEqualLoop_perm ..).trans (lswap_perm ..)

theorem pdqPrep_perm (l : List Comment) (a b : Nat) (wb : Bool) :
    (pdqPrep l a b wb).Perm l := by
  rw [pdqPrep]
  split
  · exact breakPatterns_perm ..
  · exact .refl _

theorem pdqPivot_perm (l : List Comment) (a b : Nat) :
    (pdqPivot l a b).1.Perm l := by
  rw [pdqPivot]
  split
  · exact reverseRange_perm ..
  · exact .refl _

theorem pdqPis_perm (l : List Comment) (a b : Nat) (wb wp : Bool) (hint : SortedHint) :
    (pdqPis l a b wb wp hint).1.Perm l := by
  rw [pdqPis]
  split
  · exact partialInsertionSort_perm ..
  · exact .refl _

theorem pdqsortLoop_perm :
    ∀ (fuel : Nat) (l : List Comment) (a b limit : Nat) (wb wp : Bool),
      (pdqsortLoop l a b limit wb wp fuel).Perm l
  | 0, l, a, b, limit, wb, wp => by rw [pdqsortLoop]
  | fuel+1, l, a, b, limit, wb, wp => by
    rw [pdqsortLoop]
    have hbase : ((pdqPis (pdqPivot (pdqPrep l a b wb) a b).1 a b wb wp
        (pdqPivot (pdqPrep l a b wb) a b).2.2).1).Perm l :=
      (pdqPis_perm ..).trans ((pdqPivot_perm ..).trans (pdqPrep_perm ..))
    split
    · exact insertionSort_perm ..
    · split
      · exact heapSort_perm ..
      · split <;>
        · dsimp only
          split
          · exact hbase
          · split
            · exact (pdqsortLoop_perm fuel _ _ _ _ _ _).trans
                ((partitionEqual_perm ..).trans hbase)
            · split
              · exact (pdqsortLoop_perm fuel _ _ _ _ _ _).trans
                  ((pdqsortLoop_perm fuel _ _ _ _ _ _).trans
                    ((partition_perm ..).trans hbase))
              · exact (pdqsortLoop_perm fuel _ _ _ _ _ _).trans
                  ((pdqsortLoop_perm fuel _ _ _ _ _ _).trans
                    ((partition_perm ..).trans hbase))

theorem goSort_perm (l : List Comment) : (goSort l).Perm l := by
  rw [goSort]
  split
  · exact .refl _
  · exact pdqsortLoop_perm ..

/-! ## General lemmas: Go `sort.Sort` sorts by timestamp

`SwapSeq a b` abstracts a computation that only swaps positions inside
`[a, b)`; every helper of the transcribed pdqsort is shown to be such a
sequence on its working range, with the quicksort zone invariants,
insertion-sort, heap-sort and partial-insertion-sort arguments carried out
against the fuelled definitions, culminating in `goSort_sorted` and the
executable bridge `goSort_nonDecreasing`. -/

theorem SwapSeq.trans {a b : Nat} {l₁ l₂ l₃ : List Comment}
    (h₁ : SwapSeq a b l₁ l₂) (h₂ : SwapSeq a b l₂ l₃) : SwapSeq a b l₁ l₃ := by
  induction h₁ with
  | refl => exact h₂
  | step i j hia hib hja hjb _ ih => exact .step i j hia hib hja hjb (ih h₂)

theorem SwapSeq.single {a b : Nat} (l : List Comment) (i j : Nat)
    (hia : a ≤ i) (hib : i < b) (hja : a ≤ j) (hjb : j < b) :
    SwapSeq a b l (lswap l i j) :=
  .step i j hia hib hja hjb (.refl _)

theorem SwapSeq.mono {a b a' b' : Nat} {l l' : List Comment}
    (h : SwapSeq a b l l') (ha : a' ≤ a) (hb : b ≤ b') : SwapSeq a' b' l l' := by
  induction h with
  | refl => exact .refl _
  | step i j hia hib hja hjb _ ih =>
    exact .step i j (le_trans ha hia) (lt_of_lt_of_le hib hb)
      (le_trans ha hja) (lt_of_lt_of_le hjb hb) ih

theorem lswap_length (l : List Comment) (i j : Nat) :
    (lswap l i j).length = l.length := by
  unfold lswap
  split
  · simp
  · rfl

theorem SwapSeq.length {a b : Nat} {l l' : List Comment}
    (h : SwapSeq a b l l') : l'.length = l.length := by
  induction h with
  | refl => rfl
  | step i j _ _ _ _ _ ih => rw [ih, lswap_length]

theorem lget_lswap (l : List Comment) (i j k : Nat)
    (hi : i < l.length) (hj : j < l.length) :
    lget (lswap l i j) k =
      if k = i then lget l j else if k = j then lget l i else lget l k := by
  unfold lswap lget
  rw [if_pos ⟨hi, hj⟩]
  by_cases hki : k = i <;> by_cases hkj : k = j
  · subst hki
    subst hkj
    simp [List.getD_eq_getElem?_getD, List.getElem?_set, List.length_set, hi]
  · subst hki
    simp only [List.getD_eq_getElem?_getD, List.getElem?_set_ne (fun h : j = k => hkj h.symm),
      List.getElem?_set_self hi]
    simp
  · subst hkj
    rw [List.getD_eq_getElem?_getD, List.getElem?_set_self (by simpa using hj),
      List.getD_eq_getElem?_getD]
    simp only [Option.getD_some]
    rw [if_neg hki]
    simp [List.getD_eq_getElem?_getD]
  · rw [List.getD_eq_getElem?_getD, List.getElem?_set_ne (fun h : j = k => hkj h.symm),
      List.getElem?_set_ne (fun h : i = k => hki h.symm),
      List.getD_eq_getElem?_getD, if_neg hki, if_neg hkj,
      List.getD_eq_getElem?_getD]

theorem lget_lswap_other (l : List Comment) (i j k : Nat)
    (hki : k ≠ i) (hkj : k ≠ j) :
    lget (lswap l i j) k = lget l k := by
  unfold lswap
  split
  · unfold lget
    rw [List.getD_eq_getElem?_getD, List.getElem?_set_ne (fun h => hkj h.symm),
      List.getElem?_set_ne (fun h => hki h.symm), List.getD_eq_getElem?_getD]
  · rfl

theorem SwapSeq.frame {a b : Nat} {l l' : List Comment}
    (h : SwapSeq a b l l') (k : Nat) (hk : k < a ∨ b ≤ k) :
    lget l' k = lget l k := by
  induction h with
  | refl => rfl
  | step i j hia hib hja hjb _ ih =>
    rw [ih, lget_lswap_other]
    · intro hki; subst hki; rcases hk with h | h <;> omega
    · intro hkj; subst hkj; rcases hk with h | h <;> omega

/-- One in-range swap preserves a pointwise property of `[a, b)`. -/
theorem lswap_preserve {a b : Nat} (P : Comment → Prop) (l : List Comment)
    {i j : Nat} (hia : a ≤ i) (hib : i < b) (hja : a ≤ j) (hjb : j < b)
    (hP : ∀ k, a ≤ k → k < b → P (lget l k)) :
    ∀ k, a ≤ k → k < b → P (lget (lswap l i j) k) := by
  intro k hak hkb
  by_cases hlen : i < l.length ∧ j < l.length
  · rw [lget_lswap _ _ _ _ hlen.1 hlen.2]
    split
    · exact hP j hja hjb
    · split
      · exact hP i hia hib
      · exact hP k hak hkb
  · unfold lswap
    rw [if_neg hlen]
    exact hP k hak hkb

/-- Bound transport: a pointwise property of the elements at positions
`[a, b)` survives any in-range swap sequence. -/
theorem SwapSeq.transport {a b : Nat} {l l' : List Comment}
    (h : SwapSeq a b l l') (P : Comment → Prop)
    (hP : ∀ k, a ≤ k → k < b → P (lget l k)) :
    ∀ k, a ≤ k → k < b → P (lget l' k) := by
  induction h with
  | refl => exact hP
  | step i j hia hib hja hjb _ ih =>
    exact ih (lswap_preserve P _ hia hib hja hjb hP)

theorem adjSorted_le {l : List Comment} {a b : Nat} (h : adjSorted l a b)
    {i j : Nat} (hai : a ≤ i) (hij : i ≤ j) (hjb : j < b) :
    (lget l i).timestamp ≤ (lget l j).timestamp := by
  induction j with
  | zero =>
    have : i = 0 := by omega
    subst this
    rfl
  | succ j ih =>
    by_cases hij' : i = j + 1
    · subst hij'; rfl
    · have h1 : (lget l j).timestamp ≤ (lget l (j+1)).timestamp :=
        h j (by omega) (by omega)
      exact le_trans (ih (by omega) (by omega)) h1

theorem adjSorted_trivial (l : List Comment) {a b : Nat} (h : b ≤ a + 1) :
    adjSorted l a b := by
  intro k hk hk1
  omega

theorem adjSorted_mono {l : List Comment} {a b b' : Nat} (h : adjSorted l a b')
    (hb : b ≤ b') : adjSorted l a b := by
  intro k hk hk1
  exact h k hk (by omega)

theorem insertionSortInner_spec (a : Nat) :
    ∀ (j : Nat) (l : List Comment), j < l.length → adjSorted l a j →
      SwapSeq a (j + 1) l (insertionSortInner a l j) ∧
      adjSorted (insertionSortInner a l j) a (j + 1)
  | 0, l, _hlen, _hpre => by
    rw [insertionSortInner]
    exact ⟨.refl _, adjSorted_trivial l (by omega)⟩
  | j+1, l, hlen, hpre => by
    rw [insertionSortInner]
    split
    case isFalse hcond =>
      refine ⟨.refl _, ?_⟩
      intro k hak hk1
      by_cases hk : k + 1 < j + 1
      · exact hpre k hak hk
      · have hkj : k = j := by omega
        rw [hkj]
        by_cases haj : a < j + 1
        · have : ¬ lless l (j+1) j := fun h => hcond ⟨haj, h⟩
          unfold lless at this
          simpa using of_decide_eq_false (Bool.of_not_eq_true this)
        · omega
    case isTrue hcond =>
      obtain ⟨haj, hless⟩ := hcond
      have hjlen : j < (lswap l (j+1) j).length := by rw [lswap_length]; omega
      have hpre1 : adjSorted (lswap l (j+1) j) a j := by
        intro k hak hk1
        rw [lget_lswap_other l (j+1) j k (by omega) (by omega),
          lget_lswap_other l (j+1) j (k+1) (by omega) (by omega)]
        exact hpre k hak (by omega)
      obtain ⟨hseq, hsorted⟩ :=
        insertionSortInner_spec a j (lswap l (j+1) j) hjlen hpre1
      have hl1j1 : lget (lswap l (j+1) j) (j+1) = lget l j := by
        rw [lget_lswap l (j+1) j (j+1) hlen (by omega)]
        simp
      have hltkey : ((lget l (j+1)).timestamp < (lget l j).timestamp) := by
        unfold lless at hless
        exact of_decide_eq_true hless
      refine ⟨.step (j+1) j (by omega) (by omega) (by omega) (by omega)
        (hseq.mono (le_refl a) (by omega)), ?_⟩
      intro k hak hk1
      by_cases hk : k + 1 < j + 1
      · exact hsorted k hak hk
      · have hkj : k = j := by omega
        rw [hkj]
        -- the pair (j, j+1) of the result
        have hrj1 : lget (insertionSortInner a (lswap l (j+1) j) j) (j+1) = lget l j := by
          rw [hseq.frame (j+1) (Or.inr (le_refl _)), hl1j1]
        rw [hrj1]
        -- every element of the working range is ≤ key (lget l j)
        have hbound : ∀ m, a ≤ m → m < j + 1 →
            (lget (lswap l (j+1) j) m).timestamp ≤ (lget l j).timestamp := by
          intro m ham hmj
          by_cases hmj' : m = j
          · rw [hmj']
            rw [lget_lswap l (j+1) j j hlen (by omega), if_neg (by omega), if_pos rfl]
            exact le_of_lt hltkey
          · rw [lget_lswap_other l (j+1) j m (by omega) hmj']
            exact adjSorted_le hpre ham (by omega) (by omega)
        have := hseq.transport (fun c => c.timestamp ≤ (lget l j).timestamp) hbound
        exact this j (by omega) (by omega)

theorem insertionSortLoop_spec (a b : Nat) :
    ∀ (fuel : Nat) (l : List Comment) (i : Nat),
      b ≤ l.length → a < i → b ≤ i + fuel → adjSorted l a i →
      SwapSeq a b l (insertionSortLoop a b l i fuel) ∧
      adjSorted (insertionSortLoop a b l i fuel) a b
  | 0, l, i, hlen, hai, hfuel, hpre => by
    rw [insertionSortLoop]
    exact ⟨.refl _, adjSorted_mono hpre (by omega)⟩
  | fuel+1, l, i, hlen, hai, hfuel, hpre => by
    rw [insertionSortLoop]
    split
    case isTrue hib =>
      obtain ⟨hseq1, hsorted1⟩ :=
        insertionSortInner_spec a i l (by omega) (adjSorted_mono hpre (le_refl _))
      obtain ⟨hseq2, hsorted2⟩ :=
        insertionSortLoop_spec a b fuel (insertionSortInner a l i) (i+1)
          (by rw [hseq1.length]; exact hlen) (by omega) (by omega) hsorted1
      exact ⟨(hseq1.mono (le_refl a) (by omega)).trans hseq2, hsorted2⟩
    case isFalse hib =>
      exact ⟨.refl _, adjSorted_mono hpre (by omega)⟩

theorem insertionSort_spec (l : List Comment) (a b : Nat) (hlen : b ≤ l.length) :
    SwapSeq a b l (insertionSort l a b) ∧ adjSorted (insertionSort l a b) a b := by
  unfold insertionSort
  exact insertionSortLoop_spec a b (b+1) l (a+1) hlen (by omega) (by omega)
    (adjSorted_trivial l (by omega))

theorem pisScan_spec (l : List Comment) (b : Nat) :
    ∀ (fuel i : Nat), b ≤ i + fuel → i ≤ b →
      i ≤ pisScan l b i fuel ∧ pisScan l b i fuel ≤ b ∧
      (∀ k, i ≤ k → k < pisScan l b i fuel → ¬ lless l k (k - 1) = true) ∧
      (pisScan l b i fuel = b ∨ lless l (pisScan l b i fuel) (pisScan l b i fuel - 1) = true)
  | 0, i, hfuel, hib => by
    rw [pisScan]
    exact ⟨le_refl _, hib, fun k h1 h2 => by omega, Or.inl (by omega)⟩
  | fuel+1, i, hfuel, hib => by
    rw [pisScan]
    split
    case isTrue hcond =>
      obtain ⟨hlt, hnl⟩ := hcond
      obtain ⟨h1, h2, h3, h4⟩ := pisScan_spec l b fuel (i+1) (by omega) (by omega)
      refine ⟨by omega, h2, ?_, h4⟩
      intro k hk1 hk2
      by_cases hki : k = i
      · rw [hki]; exact hnl
      · exact h3 k (by omega) hk2
    case isFalse hcond =>
      refine ⟨le_refl _, hib, fun k h1 h2 => by omega, ?_⟩
      by_cases hlt : i < b
      · right
        by_cases hl : lless l i (i-1) = true
        · exact hl
        · exact absurd ⟨hlt, fun hh => hl hh⟩ hcond
      · left; omega

theorem partitionScanI_spec (l : List Comment) (a : Nat) (j : Int) :
    ∀ (fuel : Nat) (i : Int), (j + 1 - i).toNat ≤ fuel →
      i ≤ partitionScanI l a j i fuel ∧
      partitionScanI l a j i fuel ≤ max i (j + 1) ∧
      (∀ m : Int, i ≤ m → m < partitionScanI l a j i fuel → illess l m.toNat a = true) ∧
      (partitionScanI l a j i fuel > j ∨
        ¬ illess l (partitionScanI l a j i fuel).toNat a = true)
  | 0, i, hfuel => by
    rw [partitionScanI]
    exact ⟨le_refl _, le_max_left _ _, fun m h1 h2 => by omega, Or.inl (by omega)⟩
  | fuel+1, i, hfuel => by
    rw [partitionScanI]
    split
    case isTrue hcond =>
      obtain ⟨hij, hl⟩ := hcond
      obtain ⟨h1, h2, h3, h4⟩ := partitionScanI_spec l a j fuel (i+1) (by omega)
      refine ⟨by omega, by omega, ?_, h4⟩
      intro m hm1 hm2
      by_cases hmi : m = i
      · rw [hmi]; exact hl
      · exact h3 m (by omega) hm2
    case isFalse hcond =>
      refine ⟨le_refl _, le_max_left _ _, fun m h1 h2 => by omega, ?_⟩
      by_cases hij : i ≤ j
      · right
        exact fun hl => hcond ⟨hij, hl⟩
      · left; omega

theorem partitionScanJ_spec (l : List Comment) (a : Nat) (i : Int) :
    ∀ (fuel : Nat) (j : Int), (j + 1 - i).toNat ≤ fuel →
      partitionScanJ l a i j fuel ≤ j ∧
      min j (i - 1) ≤ partitionScanJ l a i j fuel ∧
      (∀ m : Int, partitionScanJ l a i j fuel < m → m ≤ j →
        ¬ illess l m.toNat a = true) ∧
      (partitionScanJ l a i j fuel < i ∨
        illess l (partitionScanJ l a i j fuel).toNat a = true)
  | 0, j, hfuel => by
    rw [partitionScanJ]
    exact ⟨le_refl _, min_le_left _ _, fun m h1 h2 => by omega, Or.inl (by omega)⟩
  | fuel+1, j, hfuel => by
    rw [partitionScanJ]
    split
    case isTrue hcond =>
      obtain ⟨hij, hnl⟩ := hcond
      obtain ⟨h1, h2, h3, h4⟩ := partitionScanJ_spec l a i fuel (j-1) (by omega)
      refine ⟨by omega, by omega, ?_, h4⟩
      intro m hm1 hm2
      by_cases hmj : m = j
      · rw [hmj]; exact hnl
      · exact h3 m hm1 (by omega)
    case isFalse hcond =>
      refine ⟨le_refl _, min_le_left _ _, fun m h1 h2 => by omega, ?_⟩
      by_cases hij : i ≤ j
      · right
        by_cases hl : illess l j.toNat a = true
        · exact hl
        · exact absurd ⟨hij, fun hh => hl hh⟩ hcond
      · left; omega

theorem peScanI_spec (l : List Comment) (a : Nat) (j : Int) :
    ∀ (fuel : Nat) (i : Int), (j + 1 - i).toNat ≤ fuel →
      i ≤ peScanI l a j i fuel ∧
      peScanI l a j i fuel ≤ max i (j + 1) ∧
      (∀ m : Int, i ≤ m → m < peScanI l a j i fuel → ¬ illess l a m.toNat = true) ∧
      (peScanI l a j i fuel > j ∨ illess l a (peScanI l a j i fuel).toNat = true)
  | 0, i, hfuel => by
    rw [peScanI]
    exact ⟨le_refl _, le_max_left _ _, fun m h1 h2 => by omega, Or.inl (by omega)⟩
  | fuel+1, i, hfuel => by
    rw [peScanI]
    split
    case isTrue hcond =>
      obtain ⟨hij, hl⟩ := hcond
      obtain ⟨h1, h2, h3, h4⟩ := peScanI_spec l a j fuel (i+1) (by omega)
      refine ⟨by omega, by omega, ?_, h4⟩
      intro m hm1 hm2
      by_cases hmi : m = i
      · rw [hmi]; exact hl
      · exact h3 m (by omega) hm2
    case isFalse hcond =>
      refine ⟨le_refl _, le_max_left _ _, fun m h1 h2 => by omega, ?_⟩
      by_cases hij : i ≤ j
      · right
        by_cases hl : illess l a i.toNat = true
        · exact hl
        · exact absurd ⟨hij, fun hh => hl hh⟩ hcond
      · left; omega

theorem peScanJ_spec (l : List Comment) (a : Nat) (i : Int) :
    ∀ (fuel : Nat) (j : Int), (j + 1 - i).toNat ≤ fuel →
      peScanJ l a i j fuel ≤ j ∧
      min j (i - 1) ≤ peScanJ l a i j fuel ∧
      (∀ m : Int, peScanJ l a i j fuel < m → m ≤ j → illess l a m.toNat = true) ∧
      (peScanJ l a i j fuel < i ∨ ¬ illess l a (peScanJ l a i j fuel).toNat = true)
  | 0, j, hfuel => by
    rw [peScanJ]
    exact ⟨le_refl _, min_le_left _ _, fun m h1 h2 => by omega, Or.inl (by omega)⟩
  | fuel+1, j, hfuel => by
    rw [peScanJ]
    split
    case isTrue hcond =>
      obtain ⟨hij, hl⟩ := hcond
      obtain ⟨h1, h2, h3, h4⟩ := peScanJ_spec l a i fuel (j-1) (by omega)
      refine ⟨by omega, by omega, ?_, h4⟩
      intro m hm1 hm2
      by_cases hmj : m = j
      · rw [hmj]; exact hl
      · exact h3 m hm1 (by omega)
    case isFalse hcond =>
      refine ⟨le_refl _, min_le_left _ _, fun m h1 h2 => by omega, ?_⟩
      by_cases hij : i ≤ j
      · right
        exact fun hl => hcond ⟨hij, hl⟩
      · left; omega

theorem lless_lswap_other (l : List Comment) {i j m n : Nat}
    (hm1 : m ≠ i) (hm2 : m ≠ j) (hn1 : n ≠ i) (hn2 : n ≠ j) :
    lless (lswap l i j) m n = lless l m n := by
  unfold lless
  rw [lget_lswap_other l i j m hm1 hm2, lget_lswap_other l i j n hn1 hn2]

theorem illess_toNat (l : List Comment) (m : Int) (a : Nat) :
    illess l ((m.toNat : Nat) : Int) ((a : Nat) : Int) = lless l m.toNat a := by
  unfold illess
  rw [Int.toNat_natCast, Int.toNat_natCast]

theorem illess_toNat2 (l : List Comment) (a : Nat) (m : Int) :
    illess l ((a : Nat) : Int) ((m.toNat : Nat) : Int) = lless l a m.toNat := by
  unfold illess
  rw [Int.toNat_natCast, Int.toNat_natCast]

theorem lless_iff (l : List Comment) (m n : Nat) :
    lless l m n = true ↔ (lget l m).timestamp < (lget l n).timestamp := by
  unfold lless
  simp

theorem partitionSwapZones (l : List Comment) (a b : Nat) (i' j' : Int)
    (hlen : b ≤ l.length)
    (hi'a : (a : Int) + 1 ≤ i') (hj'b : j' ≤ (b : Int) - 1) (hij : i' ≤ j')
    (hzl : ltZone l a ((a : Int) + 1) i') (hzr : geZone l a j' (b : Int))
    (hstopI : ¬ lless l i'.toNat a = true) (hstopJ : lless l j'.toNat a = true) :
    ltZone (lswap l i'.toNat j'.toNat) a ((a : Int) + 1) (i' + 1) ∧
    geZone (lswap l i'.toNat j'.toNat) a (j' - 1) (b : Int) := by
  have hilen : i'.toNat < l.length := by omega
  have hjlen : j'.toNat < l.length := by omega
  have haN : a ≠ i'.toNat := by omega
  have haN2 : a ≠ j'.toNat := by omega
  constructor
  · intro m hm1 hm2
    by_cases hmi : m.toNat = i'.toNat
    · have : lless (lswap l i'.toNat j'.toNat) m.toNat a =
          lless l j'.toNat a := by
        rw [hmi]
        unfold lless
        rw [lget_lswap l i'.toNat j'.toNat i'.toNat hilen hjlen,
          lget_lswap_other l i'.toNat j'.toNat a haN haN2, if_pos rfl]
      rw [this]
      exact hstopJ
    · have hmi' : m < i' := by omega
      rw [lless_lswap_other l (by omega) (by omega) haN haN2]
      exact hzl m hm1 hmi'
  · intro m hm1 hm2
    by_cases hmj : m.toNat = j'.toNat
    · have : lless (lswap l i'.toNat j'.toNat) m.toNat a =
          lless l i'.toNat a := by
        rw [hmj]
        unfold lless
        rw [lget_lswap l i'.toNat j'.toNat j'.toNat hilen hjlen,
          lget_lswap_other l i'.toNat j'.toNat a haN haN2]
        by_cases hii : j'.toNat = i'.toNat
        · rw [if_pos hii, hii]
        · rw [if_neg hii, if_pos rfl]
      rw [this]
      exact hstopI
    · by_cases hmi : m.toNat = i'.toNat
      · omega
      · rw [lless_lswap_other l (by omega) (by omega) haN haN2]
        exact hzr m (by omega) hm2

theorem partitionLoop_spec (a b : Nat) (hab : a < b) :
    ∀ (fuel : Nat) (l : List Comment) (i j : Int),
      b ≤ l.length →
      (a : Int) + 1 ≤ i → j ≤ (b : Int) - 1 → i ≤ j + 1 →
      (j + 2 - i).toNat ≤ fuel →
      ltZone l a ((a : Int) + 1) i → geZone l a j (b : Int) →
      SwapSeq (a+1) b l (partitionLoop a l i j fuel).1 ∧
      (partitionLoop a l i j fuel).2 ≤ j ∧
      i - 1 ≤ (partitionLoop a l i j fuel).2 ∧
      ltZone (partitionLoop a l i j fuel).1 a ((a : Int) + 1)
        ((partitionLoop a l i j fuel).2 + 1) ∧
      geZone (partitionLoop a l i j fuel).1 a (partitionLoop a l i j fuel).2 (b : Int)
  | 0, l, i, j, hlen, hai, hjb, hij, hfuel, hzl, hzr => by
    -- fuel ≥ (j + 2 - i).toNat and fuel = 0 force i ≥ j + 2, impossible with i ≤ j + 1
    omega
  | fuel+1, l, i, j, hlen, hai, hjb, hij, hfuel, hzl, hzr => by
    rw [partitionLoop]
    obtain ⟨hi1, hi2, hi3, hi4⟩ :=
      partitionScanI_spec l a j ((j + 1 - i).toNat + 1) i (by omega)
    set i' := partitionScanI l a j i ((j + 1 - i).toNat + 1) with hi'
    obtain ⟨hj1, hj2, hj3, hj4⟩ :=
      partitionScanJ_spec l a i' ((j + 1 - i').toNat + 1) j (by omega)
    set j' := partitionScanJ l a i' j ((j + 1 - i').toNat + 1) with hj'
    have hi'b : i' ≤ j + 1 := by
      rcases le_or_lt i' (j+1) with h | h
      · exact h
      · have := hi2
        omega
    -- extended zones after the scans
    have hzl' : ltZone l a ((a : Int) + 1) i' := by
      intro m hm1 hm2
      rcases lt_or_ge m i with h | h
      · exact hzl m hm1 h
      · have := hi3 m h hm2
        rwa [illess_toNat] at this
    have hzr' : geZone l a j' (b : Int) := by
      intro m hm1 hm2
      rcases le_or_lt m j with h | h
      · have := hj3 m hm1 h
        rwa [illess_toNat] at this
      · exact hzr m h hm2
    split
    case isTrue hbreak =>
      exact ⟨.refl _, by omega, by omega, fun m hm1 hm2 => hzl' m hm1 (by omega), hzr'⟩
    case isFalse hbreak =>
      have hij' : i' ≤ j' := by omega
      have hi'a : (a : Int) + 1 ≤ i' := by omega
      have hj'b : j' ≤ (b : Int) - 1 := by omega
      have hiN : i'.toNat < b := by omega
      have hiN2 : a + 1 ≤ i'.toNat := by omega
      have hjN : j'.toNat < b := by omega
      have hjN2 : a + 1 ≤ j'.toNat := by omega
      have hilen : i'.toNat < l.length := by omega
      have hjlen : j'.toNat < l.length := by omega
      -- the two stopped elements are out of place; swap them
      have hstopI : ¬ lless l i'.toNat a = true := by
        rcases hi4 with h | h
        · omega
        · rwa [illess_toNat] at h
      have hstopJ : lless l j'.toNat a = true := by
        rcases hj4 with h | h
        · omega
        · rwa [illess_toNat] at h
      have hilt : i' < j' := by
        rcases lt_or_eq_of_le hij' with h | h
        · exact h
        · rw [h] at hstopI
          exact absurd hstopJ hstopI
      set l₂ := lswap l i'.toNat j'.toNat with hl₂
      have hlen₂ : b ≤ l₂.length := by rw [hl₂, lswap_length]; exact hlen
      obtain ⟨hzl₂, hzr₂⟩ :=
        partitionSwapZones l a b i' j' hlen hi'a hj'b hij' hzl' hzr' hstopI hstopJ
      have harg1 : (a : Int) + 1 ≤ i' + 1 := by omega
      have harg2 : j' - 1 ≤ (b : Int) - 1 := by omega
      have harg3 : i' + 1 ≤ (j' - 1) + 1 := by omega
      have harg4 : (j' - 1 + 2 - (i' + 1)).toNat ≤ fuel := by omega
      obtain ⟨hs, h1, h2, h3, h4⟩ :=
        partitionLoop_spec a b hab fuel l₂ (i' + 1) (j' - 1) hlen₂
          harg1 harg2 harg3 harg4 hzl₂ hzr₂
      refine ⟨?_, by omega, by omega, h3, h4⟩
      exact (SwapSeq.single l i'.toNat j'.toNat (by omega) hiN (by omega) hjN).trans hs

theorem partitionAssemble (l₁ : List Comment) (a b : Nat) (jf : Int)
    (hlen : b ≤ l₁.length) (hab : a < b)
    (hjf1 : (a : Int) ≤ jf) (hjf2 : jf ≤ (b : Int) - 1)
    (hzl : ltZone l₁ a ((a : Int) + 1) (jf + 1))
    (hzr : geZone l₁ a jf (b : Int)) :
    SwapSeq a b l₁ (lswap l₁ jf.toNat a) ∧
    a ≤ jf.toNat ∧ jf.toNat < b ∧
    (∀ k, a ≤ k → k < jf.toNat →
      (lget (lswap l₁ jf.toNat a) k).timestamp <
        (lget (lswap l₁ jf.toNat a) jf.toNat).timestamp) ∧
    (∀ k, jf.toNat < k → k < b →
      (lget (lswap l₁ jf.toNat a) jf.toNat).timestamp ≤
        (lget (lswap l₁ jf.toNat a) k).timestamp) := by
  have hjN1 : a ≤ jf.toNat := by omega
  have hjN2 : jf.toNat < b := by omega
  have hjlen : jf.toNat < l₁.length := by omega
  have halen : a < l₁.length := by omega
  have hmid : lget (lswap l₁ jf.toNat a) jf.toNat = lget l₁ a := by
    rw [lget_lswap l₁ jf.toNat a jf.toNat hjlen halen, if_pos rfl]
  refine ⟨SwapSeq.single l₁ jf.toNat a hjN1 hjN2 (le_refl a) hab, hjN1, hjN2, ?_, ?_⟩
  · intro k hak hkj
    rw [hmid]
    by_cases hka : k = a
    · have hka' : lget (lswap l₁ jf.toNat a) k = lget l₁ jf.toNat := by
        rw [lget_lswap l₁ jf.toNat a k hjlen halen, if_neg (by omega), if_pos hka]
      rw [hka']
      have := hzl jf (by omega) (by omega)
      exact (lless_iff l₁ jf.toNat a).mp this
    · rw [lget_lswap_other l₁ jf.toNat a k (by omega) hka]
      have := hzl (k : Int) (by omega) (by omega)
      rw [Int.toNat_natCast] at this
      exact (lless_iff l₁ k a).mp this
  · intro k hjk hkb
    rw [hmid]
    rw [lget_lswap_other l₁ jf.toNat a k (by omega) (by omega)]
    have := hzr (k : Int) (by omega) (by omega)
    rw [Int.toNat_natCast] at this
    exact le_of_not_lt (fun hlt => this ((lless_iff l₁ k a).mpr hlt))

theorem partition_spec (l : List Comment) (a b pivot : Nat)
    (hab : a < b) (hlen : b ≤ l.length) (hpa : a ≤ pivot) (hpb : pivot < b) :
    SwapSeq a b l (partition l a b pivot).1 ∧
    a ≤ (partition l a b pivot).2.1 ∧ (partition l a b pivot).2.1 < b ∧
    (∀ k, a ≤ k → k < (partition l a b pivot).2.1 →
      (lget (partition l a b pivot).1 k).timestamp <
        (lget (partition l a b pivot).1 (partition l a b pivot).2.1).timestamp) ∧
    (∀ k, (partition l a b pivot).2.1 < k → k < b →
      (lget (partition l a b pivot).1 (partition l a b pivot).2.1).timestamp ≤
        (lget (partition l a b pivot).1 k).timestamp) := by
  rw [partition]
  dsimp only
  obtain ⟨hi1, hi2, hi3, hi4⟩ := partitionScanI_spec (lswap l a pivot) a ((b : Int) - 1)
    (((b : Int) - 1 + 1 - ((a : Int) + 1)).toNat + 1) ((a : Int) + 1) (by omega)
  set l₁ := lswap l a pivot with hl₁
  set i₁ := partitionScanI l₁ a ((b : Int) - 1) ((a : Int) + 1)
    (((b : Int) - 1 + 1 - ((a : Int) + 1)).toNat + 1) with hi₁
  obtain ⟨hj1, hj2, hj3, hj4⟩ := partitionScanJ_spec l₁ a i₁
    (((b : Int) - 1 + 1 - i₁).toNat + 1) ((b : Int) - 1) (by omega)
  set j₁ := partitionScanJ l₁ a i₁ ((b : Int) - 1)
    (((b : Int) - 1 + 1 - i₁).toNat + 1) with hj₁
  have hlen₁ : b ≤ l₁.length := by rw [hl₁, lswap_length]; exact hlen
  have hseq₁ : SwapSeq a b l l₁ := SwapSeq.single l a pivot (le_refl a) hab hpa hpb
  have hjf2 : j₁ ≤ (b : Int) - 1 := hj1
  split
  case isTrue hbreak =>
    have hjf1 : (a : Int) ≤ j₁ := by omega
    have hzl : ltZone l₁ a ((a : Int) + 1) (j₁ + 1) := by
      intro m hm1 hm2
      have := hi3 m hm1 (by omega)
      rwa [illess_toNat] at this
    have hzr : geZone l₁ a j₁ (b : Int) := by
      intro m hm1 hm2
      have := hj3 m hm1 (by omega)
      rwa [illess_toNat] at this
    obtain ⟨hs, h1, h2, h3, h4⟩ := partitionAssemble l₁ a b j₁ hlen₁ hab hjf1 hjf2 hzl hzr
    exact ⟨hseq₁.trans hs, h1, h2, h3, h4⟩
  case isFalse hbreak =>
    have hij : i₁ ≤ j₁ := by omega
    have hstopI : ¬ lless l₁ i₁.toNat a = true := by
      rcases hi4 with h | h
      · omega
      · rwa [illess_toNat] at h
    have hstopJ : lless l₁ j₁.toNat a = true := by
      rcases hj4 with h | h
      · omega
      · rwa [illess_toNat] at h
    have hilt : i₁ < j₁ := by
      rcases lt_or_eq_of_le hij with h | h
      · exact h
      · rw [h] at hstopI
        exact absurd hstopJ hstopI
    have hzl' : ltZone l₁ a ((a : Int) + 1) i₁ := by
      intro m hm1 hm2
      have := hi3 m hm1 hm2
      rwa [illess_toNat] at this
    have hzr' : geZone l₁ a j₁ (b : Int) := by
      intro m hm1 hm2
      have := hj3 m hm1 (by omega)
      rwa [illess_toNat] at this
    obtain ⟨hzl₂, hzr₂⟩ :=
      partitionSwapZones l₁ a b i₁ j₁ hlen₁ hi1 hj1 hij hzl' hzr' hstopI hstopJ
    set l₂ := lswap l₁ i₁.toNat j₁.toNat with hl₂
    have hlen₂ : b ≤ l₂.length := by rw [hl₂, lswap_length]; exact hlen₁
    obtain ⟨hs, h1, h2, h3, h4⟩ :=
      partitionLoop_spec a b hab (b + 1) l₂ (i₁ + 1) (j₁ - 1) hlen₂
        (by omega) (by omega) (by omega) (by omega) hzl₂ hzr₂
    set res := partitionLoop a l₂ (i₁ + 1) (j₁ - 1) (b + 1) with hres
    have hlenr : b ≤ res.1.length := by rw [hs.length]; exact hlen₂
    have hrf1 : (a : Int) ≤ res.2 := by omega
    have hrf2 : res.2 ≤ (b : Int) - 1 := by omega
    obtain ⟨hs2, g1, g2, g3, g4⟩ :=
      partitionAssemble res.1 a b res.2 hlenr hab hrf1 hrf2 h3 h4
    have hswap : SwapSeq a b l₁ l₂ := by
      rw [hl₂]
      exact SwapSeq.single l₁ i₁.toNat j₁.toNat (by omega) (by omega) (by omega) (by omega)
    exact ⟨((hseq₁.trans hswap).trans (hs.mono (by omega) (le_refl b))).trans hs2,
      g1, g2, g3, g4⟩

theorem peSwapZones (l : List Comment) (a b : Nat) (i' j' : Int)
    (hlen : b ≤ l.length)
    (hi'a : (a : Int) + 1 ≤ i') (hj'b : j' ≤ (b : Int) - 1) (hij : i' ≤ j')
    (hzl : leZone l a ((a : Int) + 1) i') (hzr : gtZone l a j' (b : Int))
    (hstopI : lless l a i'.toNat = true) (hstopJ : ¬ lless l a j'.toNat = true) :
    leZone (lswap l i'.toNat j'.toNat) a ((a : Int) + 1) (i' + 1) ∧
    gtZone (lswap l i'.toNat j'.toNat) a (j' - 1) (b : Int) := by
  have hilen : i'.toNat < l.length := by omega
  have hjlen : j'.toNat < l.length := by omega
  have haN : a ≠ i'.toNat := by omega
  have haN2 : a ≠ j'.toNat := by omega
  constructor
  · intro m hm1 hm2
    by_cases hmi : m.toNat = i'.toNat
    · have : lless (lswap l i'.toNat j'.toNat) a m.toNat =
          lless l a j'.toNat := by
        rw [hmi]
        unfold lless
        rw [lget_lswap l i'.toNat j'.toNat i'.toNat hilen hjlen,
          lget_lswap_other l i'.toNat j'.toNat a haN haN2, if_pos rfl]
      rw [this]
      exact hstopJ
    · have hmi' : m < i' := by omega
      rw [lless_lswap_other l haN haN2 (by omega) (by omega)]
      exact hzl m hm1 hmi'
  · intro m hm1 hm2
    by_cases hmj : m.toNat = j'.toNat
    · have : lless (lswap l i'.toNat j'.toNat) a m.toNat =
          lless l a i'.toNat := by
        rw [hmj]
        unfold lless
        rw [lget_lswap l i'.toNat j'.toNat j'.toNat hilen hjlen,
          lget_lswap_other l i'.toNat j'.toNat a haN haN2]
        by_cases hii : j'.toNat = i'.toNat
        · rw [if_pos hii, hii]
        · rw [if_neg hii, if_pos rfl]
      rw [this]
      exact hstopI
    · by_cases hmi : m.toNat = i'.toNat
      · omega
      · rw [lless_lswap_other l haN haN2 (by omega) (by omega)]
        exact hzr m (by omega) hm2

theorem partitionEqualLoop_spec (a b : Nat) (hab : a < b) :
    ∀ (fuel : Nat) (l : List Comment) (i j : Int),
      b ≤ l.length →
      (a : Int) + 1 ≤ i → j ≤ (b : Int) - 1 → i ≤ j + 1 →
      (j + 2 - i).toNat ≤ fuel →
      leZone l a ((a : Int) + 1) i → gtZone l a j (b : Int) →
      SwapSeq (a+1) b l (partitionEqualLoop a l i j fuel).1 ∧
      i ≤ (partitionEqualLoop a l i j fuel).2 ∧
      (partitionEqualLoop a l i j fuel).2 ≤ j + 1 ∧
      leZone (partitionEqualLoop a l i j fuel).1 a ((a : Int) + 1)
        (partitionEqualLoop a l i j fuel).2 ∧
      gtZone (partitionEqualLoop a l i j fuel).1 a
        ((partitionEqualLoop a l i j fuel).2 - 1) (b : Int)
  | 0, l, i, j, hlen, hai, hjb, hij, hfuel, hzl, hzr => by
    omega
  | fuel+1, l, i, j, hlen, hai, hjb, hij, hfuel, hzl, hzr => by
    rw [partitionEqualLoop]
    obtain ⟨hi1, hi2, hi3, hi4⟩ :=
      peScanI_spec l a j ((j + 1 - i).toNat + 1) i (by omega)
    set i' := peScanI l a j i ((j + 1 - i).toNat + 1) with hi'
    obtain ⟨hj1, hj2, hj3, hj4⟩ :=
      peScanJ_spec l a i' ((j + 1 - i').toNat + 1) j (by omega)
    set j' := peScanJ l a i' j ((j + 1 - i').toNat + 1) with hj'
    have hi'b : i' ≤ j + 1 := by omega
    have hzl' : leZone l a ((a : Int) + 1) i' := by
      intro m hm1 hm2
      rcases lt_or_ge m i with h | h
      · exact hzl m hm1 h
      · have := hi3 m h hm2
        rwa [illess_toNat2] at this
    have hzr' : gtZone l a j' (b : Int) := by
      intro m hm1 hm2
      rcases le_or_lt m j with h | h
      · have := hj3 m hm1 h
        rwa [illess_toNat2] at this
      · exact hzr m h hm2
    split
    case isTrue hbreak =>
      refine ⟨.refl _, hi1, by omega, hzl', ?_⟩
      intro m hm1 hm2
      exact hzr' m (by omega) hm2
    case isFalse hbreak =>
      have hij' : i' ≤ j' := by omega
      have hi'a : (a : Int) + 1 ≤ i' := by omega
      have hj'b : j' ≤ (b : Int) - 1 := by omega
      have hstopI : lless l a i'.toNat = true := by
        rcases hi4 with h | h
        · omega
        · rwa [illess_toNat2] at h
      have hstopJ : ¬ lless l a j'.toNat = true := by
        rcases hj4 with h | h
        · omega
        · rwa [illess_toNat2] at h
      have hilt : i' < j' := by
        rcases lt_or_eq_of_le hij' with h | h
        · exact h
        · rw [h] at hstopI
          exact absurd hstopI hstopJ
      set l₂ := lswap l i'.toNat j'.toNat with hl₂
      have hlen₂ : b ≤ l₂.length := by rw [hl₂, lswap_length]; exact hlen
      obtain ⟨hzl₂, hzr₂⟩ :=
        peSwapZones l a b i' j' hlen hi'a hj'b hij' hzl' hzr' hstopI hstopJ
      obtain ⟨hs, h1, h2, h3, h4⟩ :=
        partitionEqualLoop_spec a b hab fuel l₂ (i' + 1) (j' - 1) hlen₂
          (by omega) (by omega) (by omega) (by omega) hzl₂ hzr₂
      refine ⟨?_, by omega, by omega, h3, h4⟩
      exact (SwapSeq.single l i'.toNat j'.toNat (by omega) (by omega) (by omega)
        (by omega)).trans hs

theorem partitionEqual_spec (l : List Comment) (a b pivot : Nat)
    (hab : a < b) (hlen : b ≤ l.length) (hpa : a ≤ pivot) (hpb : pivot < b) :
    SwapSeq a b l (partitionEqual l a b pivot).1 ∧
    a < (partitionEqual l a b pivot).2 ∧ (partitionEqual l a b pivot).2 ≤ b ∧
    (∀ k, a ≤ k → k < (partitionEqual l a b pivot).2 →
      (lget (partitionEqual l a b pivot).1 k).timestamp ≤
        (lget (partitionEqual l a b pivot).1 a).timestamp) ∧
    (∀ k, (partitionEqual l a b pivot).2 ≤ k → k < b →
      (lget (partitionEqual l a b pivot).1 a).timestamp <
        (lget (partitionEqual l a b pivot).1 k).timestamp) := by
  rw [partitionEqual]
  dsimp only
  set l₁ := lswap l a pivot with hl₁
  have hlen₁ : b ≤ l₁.length := by rw [hl₁, lswap_length]; exact hlen
  have hseq₁ : SwapSeq a b l l₁ := SwapSeq.single l a pivot (le_refl a) hab hpa hpb
  obtain ⟨hs, h1, h2, h3, h4⟩ :=
    partitionEqualLoop_spec a b hab (b + 1) l₁ ((a : Int) + 1) ((b : Int) - 1) hlen₁
      (le_refl _) (le_refl _) (by omega) (by omega)
      (fun m hm1 hm2 => by omega) (fun m hm1 hm2 => by omega)
  set res := partitionEqualLoop a l₁ ((a : Int) + 1) ((b : Int) - 1) (b + 1) with hres
  refine ⟨hseq₁.trans (hs.mono (by omega) (le_refl b)), by omega, by omega, ?_, ?_⟩
  · intro k hak hkm
    by_cases hka : k = a
    · rw [hka]
    · have := h3 (k : Int) (by omega) (by omega)
      rw [Int.toNat_natCast] at this
      unfold lless at this
      exact le_of_not_lt (fun hlt => this (decide_eq_true hlt))
  · intro k hmk hkb
    have := h4 (k : Int) (by omega) (by omega)
    rw [Int.toNat_natCast] at this
    exact (lless_iff res.1 a k).mp this

theorem pisShiftLeft_spec (a e : Nat) : ∀ (m : Nat) (l : List Comment),
    e ≤ l.length → a ≤ m → m + 1 < e →
    adjSorted l a m →
    adjSorted l (m+1) e →
    (∀ k, a ≤ k → k < m → (lget l k).timestamp ≤ (lget l (m+1)).timestamp) →
    (lget l m).timestamp ≤ (lget l (m+1)).timestamp →
    (0 < a → (lget l (a-1)).timestamp ≤ (lget l m).timestamp) →
    SwapSeq a e l (pisShiftLeft l m) ∧ adjSorted (pisShiftLeft l m) a e
  | 0, l, hlen, ham, hme, h1, h2, h3, h4, h5 => by
    rw [pisShiftLeft]
    refine ⟨.refl _, ?_⟩
    intro k hak hk1
    by_cases hk : k = 0
    · rw [hk]
      exact h4
    · exact h2 k (by omega) hk1
  | jj+1, l, hlen, ham, hme, h1, h2, h3, h4, h5 => by
    rw [pisShiftLeft]
    split
    case isTrue hstop =>
      refine ⟨.refl _, ?_⟩
      intro k hak hk1
      rcases Nat.lt_trichotomy (k+1) (jj+1) with h | h | h
      · exact h1 k hak h
      · have hkj : k = jj := by omega
        rw [hkj]
        have : ¬ (lget l (jj+1)).timestamp < (lget l jj).timestamp :=
          fun hlt => hstop ((lless_iff l (jj+1) jj).mpr hlt)
        exact le_of_not_lt this
      · rcases Nat.lt_or_ge k (jj+1) with h' | h'
        · omega
        · rcases Nat.eq_or_lt_of_le h' with h'' | h''
          · rw [← h'']
            exact h4
          · exact h2 k (by omega) hk1
    case isFalse hstop =>
      have hless : lless l (jj+1) jj = true := not_not.mp hstop
      have hlt : (lget l (jj+1)).timestamp < (lget l jj).timestamp :=
        (lless_iff l (jj+1) jj).mp hless
      have hma : a < jj + 1 := by
        rcases Nat.eq_or_lt_of_le ham with h | h
        · exfalso
          have ha0 : 0 < a := by omega
          have h6 := h5 ha0
          have h7 : a - 1 = jj := by omega
          rw [h7] at h6
          omega
        · exact h
      have hjlen : jj + 1 < l.length := by omega
      have hjlen2 : jj < l.length := by omega
      set l' := lswap l (jj+1) jj with hl'
      have hlen' : e ≤ l'.length := by rw [hl', lswap_length]; exact hlen
      have hgm : lget l' (jj+1) = lget l jj := by
        rw [hl', lget_lswap l (jj+1) jj (jj+1) hjlen hjlen2, if_pos rfl]
      have hgm1 : lget l' jj = lget l (jj+1) := by
        rw [hl', lget_lswap l (jj+1) jj jj hjlen hjlen2, if_neg (by omega), if_pos rfl]
      have hother : ∀ k, k ≠ jj + 1 → k ≠ jj → lget l' k = lget l k := by
        intro k hk1 hk2
        rw [hl', lget_lswap_other l (jj+1) jj k hk1 hk2]
      obtain ⟨hs, hsorted⟩ := pisShiftLeft_spec a e jj l' hlen' (by omega) (by omega)
        (by
          intro k hak hk1
          rw [hother k (by omega) (by omega), hother (k+1) (by omega) (by omega)]
          exact h1 k hak (by omega))
        (by
          intro k hak hk1
          by_cases hkm : k = jj + 1
          · rw [hkm, hgm, hother (jj+2) (by omega) (by omega)]
            exact h3 jj (by omega) (by omega)
          · rw [hother k (by omega) (by omega), hother (k+1) (by omega) (by omega)]
            exact h2 k (by omega) hk1)
        (by
          intro k hak hkj
          rw [hother k (by omega) (by omega), hgm]
          exact adjSorted_le h1 hak (by omega) (by omega))
        (by
          rw [hgm, hgm1]
          exact le_of_lt hlt)
        (by
          intro ha0
          rw [hother (a-1) (by omega) (by omega), hgm1]
          exact h5 ha0)
      refine ⟨?_, hsorted⟩
      exact (SwapSeq.single l (jj+1) jj (by omega) (by omega) (by omega)
        (by omega)).trans hs

theorem pisShiftRight_seq (b c : Nat) : ∀ (fuel : Nat) (l : List Comment) (j : Nat),
    c + 1 ≤ j → SwapSeq c b l (pisShiftRight b l j fuel)
  | 0, l, j, hcj => by
    rw [pisShiftRight]
    exact .refl _
  | fuel+1, l, j, hcj => by
    rw [pisShiftRight]
    split
    case isTrue hjb =>
      split
      case isTrue hstop => exact .refl _
      case isFalse hstop =>
        exact (SwapSeq.single l j (j-1) (by omega) hjb (by omega)
          (by omega)).trans (pisShiftRight_seq b c fuel _ (j+1) (by omega))
    case isFalse hjb => exact .refl _

theorem leftBound_preserve {a b : Nat} {l l' : List Comment}
    (h : SwapSeq a b l l') (hlb : leftBound l a b) : leftBound l' a b := by
  intro ha0 k hak hkb
  rw [h.frame (a-1) (Or.inl (by omega))]
  exact h.transport (fun c => (lget l (a-1)).timestamp ≤ c.timestamp)
    (hlb ha0) k hak hkb

theorem partialInsertionSortLoop_spec (a b : Nat) :
    ∀ (steps : Nat) (l : List Comment) (i : Nat),
      b ≤ l.length → a + 1 ≤ i → i ≤ b →
      adjSorted l a i → leftBound l a b →
      SwapSeq a b l (partialInsertionSortLoop a b l i steps).1 ∧
      ((partialInsertionSortLoop a b l i steps).2 = true →
        adjSorted (partialInsertionSortLoop a b l i steps).1 a b)
  | 0, l, i, hlen, hai, hib, hsort, hlb => by
    rw [partialInsertionSortLoop]
    exact ⟨.refl _, fun h => Bool.noConfusion h⟩
  | steps+1, l, i, hlen, hai, hib, hsort, hlb => by
    rw [partialInsertionSortLoop]
    dsimp only
    obtain ⟨hs1, hs2, hs3, hs4⟩ := pisScan_spec l b (b+1) i (by omega) hib
    set i' := pisScan l b i (b+1) with hi'
    have hsort' : adjSorted l a i' := by
      intro k hak hk1
      rcases Nat.lt_or_ge (k+1) i with h | h
      · exact hsort k hak h
      · have hnl := hs3 (k+1) h (by omega)
        have : ¬ (lget l (k+1)).timestamp < (lget l k).timestamp :=
          fun hh => hnl ((lless_iff l (k+1) k).mpr hh)
        exact le_of_not_lt this
    split
    case isTrue heq =>
      refine ⟨.refl _, fun _ => ?_⟩
      rw [← heq]
      exact hsort'
    case isFalse hne =>
      split
      case isTrue h50 => exact ⟨.refl _, fun h => Bool.noConfusion h⟩
      case isFalse h50 =>
        have hib' : i' < b := by omega
        have hless : lless l i' (i'-1) = true := by
          rcases hs4 with h | h
          · exact absurd h hne
          · exact h
        have hlt : (lget l i').timestamp < (lget l (i'-1)).timestamp :=
          (lless_iff l i' (i'-1)).mp hless
        have hilen : i' < l.length := by omega
        have hilen2 : i' - 1 < l.length := by omega
        set l₂ := lswap l i' (i'-1) with hl₂
        have hlen₂ : b ≤ l₂.length := by rw [hl₂, lswap_length]; exact hlen
        have hseq1 : SwapSeq a b l l₂ :=
          SwapSeq.single l i' (i'-1) (by omega) hib' (by omega) (by omega)
        have hg1 : lget l₂ (i'-1) = lget l i' := by
          rw [hl₂, lget_lswap l i' (i'-1) (i'-1) hilen hilen2,
            if_neg (by omega), if_pos rfl]
        have hg2 : lget l₂ i' = lget l (i'-1) := by
          rw [hl₂, lget_lswap l i' (i'-1) i' hilen hilen2, if_pos rfl]
        have hother : ∀ k, k ≠ i' → k ≠ i' - 1 → lget l₂ k = lget l k := by
          intro k hk1 hk2
          rw [hl₂, lget_lswap_other l i' (i'-1) k hk1 hk2]
        set l₃ := if i' - a ≥ 2 then pisShiftLeft l₂ (i' - 1) else l₂ with hl₃
        have hstage2 : SwapSeq a b l₂ l₃ ∧ adjSorted l₃ a i' := by
          rw [hl₃]
          split
          case isTrue h2a =>
            obtain ⟨hs, hsorted⟩ := pisShiftLeft_spec a (i'+1) (i'-1) l₂
              (by omega)
              (by omega) (by omega)
              (by
                intro k hak hk1
                rw [hother k (by omega) (by omega), hother (k+1) (by omega) (by omega)]
                exact hsort' k hak (by omega))
              (adjSorted_trivial l₂ (by omega))
              (by
                intro k hak hk1
                rw [hother k (by omega) (by omega)]
                have hi'eq : i' - 1 + 1 = i' := by omega
                rw [hi'eq, hg2]
                exact adjSorted_le hsort' hak (by omega) (by omega))
              (by
                have hi'eq : i' - 1 + 1 = i' := by omega
                rw [hi'eq, hg1, hg2]
                exact le_of_lt hlt)
              (by
                intro ha0
                rw [hother (a-1) (by omega) (by omega), hg1]
                exact hlb ha0 i' (by omega) hib')
            exact ⟨hs.mono (le_refl a) (by omega),
              adjSorted_mono hsorted (by omega)⟩
          case isFalse h2a =>
            exact ⟨.refl _, adjSorted_trivial l₂ (by omega)⟩
        obtain ⟨hseq2, hsort₃⟩ := hstage2
        set l₄ := if b - i' ≥ 2 then pisShiftRight b l₃ (i' + 1) (b + 1) else l₃
          with hl₄
        have hseqR : SwapSeq i' b l₃ l₄ := by
          rw [hl₄]
          split
          · exact pisShiftRight_seq b i' (b+1) l₃ (i'+1) (le_refl _)
          · exact .refl _
        have hsort₄ : adjSorted l₄ a i' := by
          intro k hak hk1
          rw [hseqR.frame k (Or.inl (by omega)), hseqR.frame (k+1) (Or.inl (by omega))]
          exact hsort₃ k hak hk1
        have hseqTot : SwapSeq a b l l₄ :=
          (hseq1.trans hseq2).trans (hseqR.mono (by omega) (le_refl b))
        have hlen₄ : b ≤ l₄.length := by rw [hseqTot.length]; exact hlen
        obtain ⟨hsF, hresF⟩ := partialInsertionSortLoop_spec a b steps l₄ i'
          hlen₄ (by omega) (by omega) hsort₄ (leftBound_preserve hseqTot hlb)
        exact ⟨hseqTot.trans hsF, hresF⟩

theorem partialInsertionSort_spec (l : List Comment) (a b : Nat)
    (hlen : b ≤ l.length) (hab : a < b) (hlb : leftBound l a b) :
    SwapSeq a b l (partialInsertionSort l a b).1 ∧
    ((partialInsertionSort l a b).2 = true →
      adjSorted (partialInsertionSort l a b).1 a b) := by
  unfold partialInsertionSort
  exact partialInsertionSortLoop_spec a b 5 l (a+1) hlen (le_refl _) (by omega)
    (adjSorted_trivial l (by omega)) hlb

theorem siftDownLoop_spec (lo hi first : Nat) :
    ∀ (fuel : Nat) (l : List Comment) (root : Nat),
      lo ≤ root → hi ≤ root + fuel → first + hi ≤ l.length →
      (∀ r, lo ≤ r → r < hi → r ≠ root → heapNode l first hi r) →
      (lo < root → lo ≤ (root-1)/2 →
        (2*root+1 < hi →
          (lget l (first+(2*root+1))).timestamp ≤
            (lget l (first+(root-1)/2)).timestamp) ∧
        (2*root+2 < hi →
          (lget l (first+(2*root+2))).timestamp ≤
            (lget l (first+(root-1)/2)).timestamp)) →
      SwapSeq first (first+hi) l (siftDownLoop hi first l root fuel) ∧
      ∀ r, lo ≤ r → r < hi → heapNode (siftDownLoop hi first l root fuel) first hi r
  | 0, l, root, hlo, hfuel, hlen, hA, hB => by
    rw [siftDownLoop]
    exact ⟨.refl _, fun r hr1 hr2 => hA r hr1 hr2 (by omega)⟩
  | fuel+1, l, root, hlo, hfuel, hlen, hA, hB => by
    rw [siftDownLoop]
    dsimp only
    split
    case isTrue hleaf =>
      refine ⟨.refl _, fun r hr1 hr2 => ?_⟩
      by_cases hrr : r = root
      · rw [hrr]
        exact ⟨fun h => by omega, fun h => by omega⟩
      · exact hA r hr1 hr2 hrr
    case isFalse hleaf =>
      have hch : 2*root+1 < hi := by omega
      have hroothi : root < hi := by omega
      set c := if 2*root+1+1 < hi ∧ lless l (first+(2*root+1)) (first+(2*root+1)+1) = true
        then 2*root+1+1 else 2*root+1 with hcdef
      have hcrange : 2*root+1 ≤ c ∧ c ≤ 2*root+2 ∧ c < hi := by
        rw [hcdef]
        split
        case isTrue h => exact ⟨by omega, by omega, by omega⟩
        case isFalse h => exact ⟨le_refl _, by omega, hch⟩
      have hmax1 : (lget l (first+(2*root+1))).timestamp ≤
          (lget l (first+c)).timestamp := by
        rw [hcdef]
        split
        case isTrue h =>
          have hlt := (lless_iff l (first+(2*root+1)) (first+(2*root+1)+1)).mp h.2
          have he : first+(2*root+1)+1 = first+(2*root+1+1) := by omega
          rw [he] at hlt
          exact le_of_lt hlt
        case isFalse h => exact le_refl _
      have hmax2 : 2*root+2 < hi →
          (lget l (first+(2*root+2))).timestamp ≤ (lget l (first+c)).timestamp := by
        intro h22
        rw [hcdef]
        split
        case isTrue h =>
          have he : (2:Nat)*root+1+1 = 2*root+2 := by omega
          rw [he]
        case isFalse h =>
          have hnl : ¬ lless l (first+(2*root+1)) (first+(2*root+1)+1) = true :=
            fun hl => h ⟨by omega, hl⟩
          have hnl' : ¬ (lget l (first+(2*root+1))).timestamp <
              (lget l (first+(2*root+1)+1)).timestamp :=
            fun hh => hnl ((lless_iff l _ _).mpr hh)
          have he : first+(2*root+1)+1 = first+(2*root+2) := by omega
          rw [he] at hnl'
          exact le_of_not_lt hnl'
      have hcroot : root < c := by omega
      split
      case isTrue hstop =>
        have hnl : ¬ (lget l (first+root)).timestamp <
            (lget l (first+c)).timestamp :=
          fun hh => hstop ((lless_iff l _ _).mpr hh)
        refine ⟨.refl _, fun r hr1 hr2 => ?_⟩
        by_cases hrr : r = root
        · rw [hrr]
          exact ⟨fun h1 => le_trans hmax1 (le_of_not_lt hnl),
            fun h2 => le_trans (hmax2 h2) (le_of_not_lt hnl)⟩
        · exact hA r hr1 hr2 hrr
      case isFalse hgo =>
        have hless : lless l (first+root) (first+c) = true := not_not.mp hgo
        have hlt : (lget l (first+root)).timestamp < (lget l (first+c)).timestamp :=
          (lless_iff l _ _).mp hless
        have hrlen : first + root < l.length := by omega
        have hclen : first + c < l.length := by omega
        set l' := lswap l (first+root) (first+c) with hl'
        have hlen' : first + hi ≤ l'.length := by rw [hl', lswap_length]; exact hlen
        have hY : lget l' (first+root) = lget l (first+c) := by
          rw [hl', lget_lswap l (first+root) (first+c) (first+root) hrlen hclen,
            if_pos rfl]
        have hX : lget l' (first+c) = lget l (first+root) := by
          rw [hl', lget_lswap l (first+root) (first+c) (first+c) hrlen hclen,
            if_neg (by omega), if_pos rfl]
        have hoth : ∀ k, k ≠ first+root → k ≠ first+c → lget l' k = lget l k := by
          intro k hk1 hk2
          rw [hl', lget_lswap_other l (first+root) (first+c) k hk1 hk2]
        have hcor : c = 2*root+1 ∨ c = 2*root+2 := by omega
        have hA' : ∀ r, lo ≤ r → r < hi → r ≠ c → heapNode l' first hi r := by
          intro r hr1 hr2 hrc
          by_cases hrroot : r = root
          · rw [hrroot]
            constructor
            · intro h1
              by_cases h1c : 2*root+1 = c
              · rw [show first+(2*root+1) = first+c by omega, hX, hY]
                exact le_of_lt hlt
              · rw [hoth (first+(2*root+1)) (by omega) (by omega), hY]
                exact hmax1
            · intro h2
              by_cases h2c : 2*root+2 = c
              · rw [show first+(2*root+2) = first+c by omega, hX, hY]
                exact le_of_lt hlt
              · rw [hoth (first+(2*root+2)) (by omega) (by omega), hY]
                exact hmax2 h2
          · have hold := hA r hr1 hr2 hrroot
            constructor
            · intro h1
              by_cases e1 : 2*r+1 = root
              · have hrootlo : lo < root := by omega
                obtain ⟨hb1, hb2⟩ := hB hrootlo (by omega)
                rw [hoth (first+r) (by omega) (by omega),
                  show first+(2*r+1) = first+root by omega, hY]
                have hrp : (root-1)/2 = r := by omega
                rcases hcor with hc | hc
                · rw [hc, ← hrp]
                  exact hb1 (by omega)
                · rw [hc, ← hrp]
                  exact hb2 (by omega)
              · by_cases e2 : 2*r+1 = c
                · omega
                · rw [hoth (first+r) (by omega) (by omega),
                    hoth (first+(2*r+1)) (by omega) (by omega)]
                  exact hold.1 h1
            · intro h2
              by_cases e1 : 2*r+2 = root
              · have hrootlo : lo < root := by omega
                obtain ⟨hb1, hb2⟩ := hB hrootlo (by omega)
                rw [hoth (first+r) (by omega) (by omega),
                  show first+(2*r+2) = first+root by omega, hY]
                have hrp : (root-1)/2 = r := by omega
                rcases hcor with hc | hc
                · rw [hc, ← hrp]
                  exact hb1 (by omega)
                · rw [hc, ← hrp]
                  exact hb2 (by omega)
              · by_cases e2 : 2*r+2 = c
                · omega
                · rw [hoth (first+r) (by omega) (by omega),
                    hoth (first+(2*r+2)) (by omega) (by omega)]
                  exact hold.2 h2
        have hB' : lo < c → lo ≤ (c-1)/2 →
            (2*c+1 < hi →
              (lget l' (first+(2*c+1))).timestamp ≤
                (lget l' (first+(c-1)/2)).timestamp) ∧
            (2*c+2 < hi →
              (lget l' (first+(2*c+2))).timestamp ≤
                (lget l' (first+(c-1)/2)).timestamp) := by
          intro hcl hcp
          have hpc : (c-1)/2 = root := by omega
          have holdc := hA c (by omega) hcrange.2.2 (by omega)
          rw [hpc]
          constructor
          · intro h1
            rw [hoth (first+(2*c+1)) (by omega) (by omega), hY]
            exact holdc.1 h1
          · intro h2
            rw [hoth (first+(2*c+2)) (by omega) (by omega), hY]
            exact holdc.2 h2
        obtain ⟨hs, hpost⟩ := siftDownLoop_spec lo hi first fuel l' c
          (by omega) (by omega) hlen' hA' hB'
        exact ⟨(SwapSeq.single l (first+root) (first+c) (by omega) (by omega)
          (by omega) (by omega)).trans hs, hpost⟩

theorem siftDown_spec (l : List Comment) (lo hi first : Nat)
    (hlen : first + hi ≤ l.length)
    (hA : ∀ r, lo ≤ r → r < hi → r ≠ lo → heapNode l first hi r) :
    SwapSeq first (first+hi) l (siftDown l lo hi first) ∧
    ∀ r, lo ≤ r → r < hi → heapNode (siftDown l lo hi first) first hi r := by
  unfold siftDown
  exact siftDownLoop_spec lo hi first (hi+1) l lo (le_refl _) (by omega) hlen hA
    (fun h => absurd h (lt_irrefl lo))

theorem heapSortBuild_spec (hi first : Nat) : ∀ (i : Nat) (l : List Comment),
    first + hi ≤ l.length →
    (∀ r, i < r → r < hi → heapNode l first hi r) →
    SwapSeq first (first+hi) l (heapSortBuild hi first l i) ∧
    ∀ r, r < hi → heapNode (heapSortBuild hi first l i) first hi r
  | 0, l, hlen, hpre => by
    rw [heapSortBuild]
    obtain ⟨hs, hpost⟩ := siftDown_spec l 0 hi first hlen
      (fun r hr1 hr2 hr0 => hpre r (by omega) hr2)
    exact ⟨hs, fun r hr => hpost r (Nat.zero_le r) hr⟩
  | i+1, l, hlen, hpre => by
    rw [heapSortBuild]
    obtain ⟨hs1, hpost1⟩ := siftDown_spec l (i+1) hi first hlen
      (fun r hr1 hr2 hrne => hpre r (by omega) hr2)
    obtain ⟨hs2, hpost2⟩ := heapSortBuild_spec hi first i (siftDown l (i+1) hi first)
      (by rw [hs1.length]; exact hlen)
      (fun r hr1 hr2 => hpost1 r (by omega) hr2)
    exact ⟨hs1.trans hs2, hpost2⟩

theorem heap_root_max (l : List Comment) (first hi : Nat)
    (hheap : ∀ r, r < hi → heapNode l first hi r) :
    ∀ r, r < hi → (lget l (first+r)).timestamp ≤ (lget l first).timestamp := by
  intro r
  induction r using Nat.strong_induction_on with
  | _ r ih =>
    intro hr
    by_cases hr0 : r = 0
    · rw [hr0, Nat.add_zero]
    · have hp : (r-1)/2 < r := by omega
      have hpar := hheap ((r-1)/2) (by omega)
      rcases (by omega : r = 2*((r-1)/2)+1 ∨ r = 2*((r-1)/2)+2) with h | h
      · have hle := hpar.1 (by omega)
        rw [← h] at hle
        exact le_trans hle (ih _ hp (by omega))
      · have hle := hpar.2 (by omega)
        rw [← h] at hle
        exact le_trans hle (ih _ hp (by omega))

theorem lget_lswap_self (l : List Comment) (i k : Nat) :
    lget (lswap l i i) k = lget l k := by
  by_cases hi : i < l.length
  · rw [lget_lswap l i i k hi hi]
    by_cases hki : k = i
    · rw [if_pos hki, hki]
    · rw [if_neg hki, if_neg hki]
  · unfold lswap
    rw [if_neg (fun h => hi h.1)]

theorem heapSortPop_spec (first hiTot : Nat) : ∀ (i : Nat) (l : List Comment),
    first + hiTot ≤ l.length → i + 1 ≤ hiTot →
    (∀ r, r < i+1 → heapNode l first (i+1) r) →
    adjSorted l (first+(i+1)) (first+hiTot) →
    (∀ k, k < i+1 → i+1 < hiTot →
      (lget l (first+k)).timestamp ≤ (lget l (first+(i+1))).timestamp) →
    SwapSeq first (first+hiTot) l (heapSortPop first l i) ∧
    adjSorted (heapSortPop first l i) first (first+hiTot)
  | 0, l, hlen, hi1, hheap, hsuf, hbound => by
    rw [heapSortPop]
    unfold siftDown
    rw [siftDownLoop]
    dsimp only
    rw [if_pos (by omega : 2*0+1 ≥ 0)]
    refine ⟨SwapSeq.single l first first (le_refl _) (by omega) (le_refl _)
      (by omega), ?_⟩
    intro k hak hk1
    rw [lget_lswap_self, lget_lswap_self]
    by_cases hk0 : k = first
    · rw [hk0]
      exact hbound 0 (by omega) (by omega)
    · exact hsuf k (by omega) hk1
  | i+1, l, hlen, hi1, hheap, hsuf, hbound => by
    rw [heapSortPop]
    have hflen : first < l.length := by omega
    have hslen : first + (i+1+1) ≤ l.length := by omega
    have hplen : first + (i+1) < l.length := by omega
    set l₂ := lswap l first (first+(i+1)) with hl₂
    have hseq1 : SwapSeq first (first+hiTot) l l₂ :=
      SwapSeq.single l first (first+(i+1)) (le_refl _) (by omega) (by omega) (by omega)
    have hlen₂ : first + hiTot ≤ l₂.length := by rw [hl₂, lswap_length]; exact hlen
    have hg1 : lget l₂ first = lget l (first+(i+1)) := by
      rw [hl₂, lget_lswap l first (first+(i+1)) first hflen hplen, if_pos rfl]
    have hg2 : lget l₂ (first+(i+1)) = lget l first := by
      rw [hl₂, lget_lswap l first (first+(i+1)) (first+(i+1)) hflen hplen,
        if_neg (by omega), if_pos rfl]
    have hoth : ∀ k, k ≠ first → k ≠ first+(i+1) → lget l₂ k = lget l k := by
      intro k hk1 hk2
      rw [hl₂, lget_lswap_other l first (first+(i+1)) k hk1 hk2]
    have hmax := heap_root_max l first (i+1+1) hheap
    obtain ⟨hsift, hheap₃⟩ := siftDown_spec l₂ 0 (i+1) first (by omega)
      (by
        intro r hr1 hr2 hr0
        have hold := hheap r (by omega)
        constructor
        · intro h1
          rw [hoth (first+r) (by omega) (by omega),
            hoth (first+(2*r+1)) (by omega) (by omega)]
          exact hold.1 (by omega)
        · intro h2
          rw [hoth (first+r) (by omega) (by omega),
            hoth (first+(2*r+2)) (by omega) (by omega)]
          exact hold.2 (by omega))
    set l₃ := siftDown l₂ 0 (i+1) first with hl₃
    have hlen₃ : first + hiTot ≤ l₃.length := by rw [hsift.length]; exact hlen₂
    have hfr : ∀ k, first + (i+1) ≤ k → lget l₃ k = lget l₂ k := by
      intro k hk
      exact hsift.frame k (Or.inr hk)
    have hsuf₃ : adjSorted l₃ (first+(i+1)) (first+hiTot) := by
      intro k hak hk1
      rw [hfr k (by omega), hfr (k+1) (by omega)]
      by_cases hke : k = first+(i+1)
      · rw [hke, hg2, hoth (first+(i+1)+1) (by omega) (by omega)]
        have := hbound 0 (by omega) (by omega)
        rw [Nat.add_zero] at this
        have he : first+(i+1)+1 = first+(i+1+1) := by omega
        rw [he]
        exact this
      · rw [hoth k (by omega) (by omega), hoth (k+1) (by omega) (by omega)]
        exact hsuf k (by omega) hk1
    have hbound₃ : ∀ k, k < i+1 → i+1 < hiTot →
        (lget l₃ (first+k)).timestamp ≤ (lget l₃ (first+(i+1))).timestamp := by
      intro k hk _
      have htop : lget l₃ (first+(i+1)) = lget l first := by
        rw [hfr (first+(i+1)) (le_refl _), hg2]
      rw [htop]
      have hP : ∀ m, first ≤ m → m < first+(i+1) →
          (lget l₂ m).timestamp ≤ (lget l first).timestamp := by
        intro m hm1 hm2
        by_cases hmf : m = first
        · rw [hmf, hg1]
          exact hmax (i+1) (by omega)
        · rw [hoth m hmf (by omega)]
          have := hmax (m - first) (by omega)
          have he : first + (m - first) = m := by omega
          rw [he] at this
          exact this
      exact hsift.transport (fun c => c.timestamp ≤ (lget l first).timestamp)
        hP (first+k) (by omega) (by omega)
    obtain ⟨hs2, hsorted⟩ := heapSortPop_spec first hiTot i l₃ hlen₃ (by omega)
      (fun r hr => hheap₃ r (Nat.zero_le r) hr) hsuf₃ hbound₃
    exact ⟨hseq1.trans ((hsift.mono (le_refl first) (by omega)).trans hs2), hsorted⟩

theorem heapSort_spec (l : List Comment) (a b : Nat)
    (hlen : b ≤ l.length) (hab : a ≤ b) :
    SwapSeq a b l (heapSort l a b) ∧ adjSorted (heapSort l a b) a b := by
  unfold heapSort
  dsimp only
  obtain ⟨hs1, hheap⟩ := heapSortBuild_spec (b-a) a ((b-a-1)/2) l (by omega)
    (by
      intro r hr1 hr2
      exact ⟨fun h => by omega, fun h => by omega⟩)
  split
  case isTrue h0 =>
    exact ⟨hs1.mono (le_refl a) (by omega),
      adjSorted_trivial _ (by omega)⟩
  case isFalse h0 =>
    set l₁ := heapSortBuild (b-a) a l ((b-a-1)/2) with hl₁
    have hlen₁ : a + (b-a) ≤ l₁.length := by rw [hs1.length]; omega
    have he : b - a - 1 + 1 = b - a := by omega
    obtain ⟨hs2, hsorted⟩ := heapSortPop_spec a (b-a) (b-a-1) l₁ hlen₁ (by omega)
      (by rw [he]; exact fun r hr => hheap r hr)
      (adjSorted_trivial l₁ (by omega))
      (fun k hk hguard => absurd hguard (by omega))
    have hba : a + (b-a) = b := by omega
    rw [hba] at hs1 hs2 hsorted
    exact ⟨hs1.trans hs2, hsorted⟩

theorem goBitsLenAux_zero : ∀ fuel, goBitsLenAux fuel 0 = 0
  | 0 => rfl
  | fuel+1 => by rw [goBitsLenAux]; exact if_pos rfl

theorem goBitsLenAux_bounds : ∀ (fuel n : Nat), n < fuel → 0 < n →
    n < 2^(goBitsLenAux fuel n) ∧ 2^(goBitsLenAux fuel n) ≤ 2*n
  | 0, n, hf, hn => by omega
  | fuel+1, n, hf, hn => by
    rw [goBitsLenAux, if_neg (by omega)]
    by_cases h2 : n / 2 = 0
    · have hn1 : n = 1 := by omega
      rw [h2, goBitsLenAux_zero, hn1]
      exact ⟨by norm_num, by norm_num⟩
    · obtain ⟨ih1, ih2⟩ := goBitsLenAux_bounds fuel (n/2) (by omega) (by omega)
      constructor
      · have : n ≤ 2*(n/2) + 1 := by omega
        calc n ≤ 2*(n/2) + 1 := by omega
          _ < 2*(2^(goBitsLenAux fuel (n/2))) := by omega
          _ = 2^(goBitsLenAux fuel (n/2) + 1) := by ring
      · calc 2^(goBitsLenAux fuel (n/2) + 1)
            = 2*(2^(goBitsLenAux fuel (n/2))) := by ring
          _ ≤ 2*(2*(n/2)) := by omega
          _ ≤ 2*n := by omega

theorem nextPowerOfTwo_bounds (n : Nat) (hn : 0 < n) :
    n < nextPowerOfTwo n ∧ nextPowerOfTwo n ≤ 2*n := by
  unfold nextPowerOfTwo goBitsLen
  rw [Nat.shiftLeft_eq, one_mul]
  exact goBitsLenAux_bounds (n+1) n (by omega) hn

theorem breakPatternsStep_seq (a length idx modulus : Nat)
    (st : List Comment × Nat) (i : Nat) (b : Nat)
    (hidx1 : a ≤ idx - 1 + i) (hidx2 : idx - 1 + i < b)
    (hmod : 0 < modulus) (hmod2 : modulus ≤ 2*length) (hlen : a + length = b)
    (_hl : 0 < length) :
    SwapSeq a b st.1 (breakPatternsStep a length idx modulus st i).1 := by
  unfold breakPatternsStep
  dsimp only
  have hand : xorshiftNext st.2 &&& (modulus - 1) ≤ modulus - 1 :=
    Nat.and_le_right
  set other := xorshiftNext st.2 &&& (modulus - 1) with ho
  have hother : (if other ≥ length then other - length else other) < length := by
    split
    · omega
    · omega
  exact SwapSeq.single st.1 (idx - 1 + i) (a + _) hidx1 hidx2 (by omega) (by omega)

theorem breakPatterns_seq (l : List Comment) (a b : Nat) (hab : a ≤ b) :
    SwapSeq a b l (breakPatterns l a b) := by
  unfold breakPatterns
  dsimp only
  split
  case isFalse h => exact .refl _
  case isTrue h8 =>
    obtain ⟨hp1, hp2⟩ := nextPowerOfTwo_bounds (b-a) (by omega)
    have hidx : ∀ i, i ≤ 2 → a ≤ a + (b-a)/4*2 - 1 - 1 + i ∧
        a + (b-a)/4*2 - 1 - 1 + i < b := by
      intro i hi
      omega
    have h1 := breakPatternsStep_seq a (b-a) (a + (b-a)/4*2 - 1) (nextPowerOfTwo (b-a))
      (l, b-a) 0 b (hidx 0 (by omega)).1 (hidx 0 (by omega)).2 (by omega) hp2
      (by omega) (by omega)
    have h2 := breakPatternsStep_seq a (b-a) (a + (b-a)/4*2 - 1) (nextPowerOfTwo (b-a))
      (breakPatternsStep a (b-a) (a + (b-a)/4*2 - 1) (nextPowerOfTwo (b-a)) (l, b-a) 0)
      1 b (hidx 1 (by omega)).1 (hidx 1 (by omega)).2 (by omega) hp2 (by omega) (by omega)
    have h3 := breakPatternsStep_seq a (b-a) (a + (b-a)/4*2 - 1) (nextPowerOfTwo (b-a))
      (breakPatternsStep a (b-a) (a + (b-a)/4*2 - 1) (nextPowerOfTwo (b-a))
        (breakPatternsStep a (b-a) (a + (b-a)/4*2 - 1) (nextPowerOfTwo (b-a)) (l, b-a) 0)
        1)
      2 b (hidx 2 (by omega)).1 (hidx 2 (by omega)).2 (by omega) hp2 (by omega) (by omega)
    exact (h1.trans h2).trans h3

theorem reverseRangeLoop_seq (c d : Nat) : ∀ (fuel : Nat) (l : List Comment) (i j : Nat),
    c ≤ i → j < d → SwapSeq c d l (reverseRangeLoop l i j fuel)
  | 0, l, i, j, hc, hd => by
    rw [reverseRangeLoop]
    exact .refl _
  | fuel+1, l, i, j, hc, hd => by
    rw [reverseRangeLoop]
    split
    case isTrue hij =>
      exact (SwapSeq.single l i j hc (by omega) (by omega) hd).trans
        (reverseRangeLoop_seq c d fuel _ (i+1) (j-1) (by omega) (by omega))
    case isFalse hij => exact .refl _

theorem reverseRange_seq (l : List Comment) (a b : Nat) (hb : 0 < b) :
    SwapSeq a b l (reverseRange l a b) := by
  unfold reverseRange
  exact reverseRangeLoop_seq a b (b+1) l a (b-1) (le_refl _) (by omega)

theorem order2_mem (l : List Comment) (a b s : Nat) :
    order2 l a b s = (a, b, s) ∨ order2 l a b s = (b, a, s+1) := by
  unfold order2
  split
  · exact Or.inr rfl
  · exact Or.inl rfl

theorem median_mem (l : List Comment) (a b c s : Nat) :
    (median l a b c s).1 = a ∨ (median l a b c s).1 = b ∨ (median l a b c s).1 = c := by
  unfold median
  rcases order2_mem l a b s with h1 | h1 <;> rw [h1] <;> dsimp only
  · rcases order2_mem l b c s with h2 | h2 <;> rw [h2] <;> dsimp only
    · rcases order2_mem l a b s with h3 | h3 <;> rw [h3] <;> simp
    · rcases order2_mem l a c (s+1) with h3 | h3 <;> rw [h3] <;> simp
  · rcases order2_mem l a c (s+1) with h2 | h2 <;> rw [h2] <;> dsimp only
    · rcases order2_mem l b a (s+1) with h3 | h3 <;> rw [h3] <;> simp
    · rcases order2_mem l b c (s+1+1) with h3 | h3 <;> rw [h3] <;> simp

theorem medianAdjacent_mem (l : List Comment) (a s : Nat) :
    (medianAdjacent l a s).1 = a - 1 ∨ (medianAdjacent l a s).1 = a ∨
      (medianAdjacent l a s).1 = a + 1 :=
  median_mem l (a-1) a (a+1) s

theorem choosePivot_range (l : List Comment) (a b : Nat) (h12 : 12 < b - a) :
    a ≤ (choosePivot l a b).1 ∧ (choosePivot l a b).1 < b := by
  unfold choosePivot
  dsimp only
  split
  case isFalse h8 => exact (h8 (by omega)).elim
  case isTrue h8 =>
    split
    case isTrue h50 =>
      rcases hmi : medianAdjacent l (a + (b-a)/4*1) 0 with ⟨i1, s1⟩
      have h1 := medianAdjacent_mem l (a + (b-a)/4*1) 0
      rw [hmi] at h1
      dsimp only
      rcases hmj : medianAdjacent l (a + (b-a)/4*2) s1 with ⟨j1, s2⟩
      have h2 := medianAdjacent_mem l (a + (b-a)/4*2) s1
      rw [hmj] at h2
      dsimp only
      rcases hmk : medianAdjacent l (a + (b-a)/4*3) s2 with ⟨k1, s3⟩
      have h3 := medianAdjacent_mem l (a + (b-a)/4*3) s2
      rw [hmk] at h3
      dsimp only
      rcases hmm : median l i1 j1 k1 s3 with ⟨p, s4⟩
      have h4 := median_mem l i1 j1 k1 s3
      rw [hmm] at h4
      dsimp only at h1 h2 h3 h4 ⊢
      rcases h4 with h | h | h <;> rcases h1 with h1 | h1 | h1 <;>
        rcases h2 with h2 | h2 | h2 <;> rcases h3 with h3 | h3 | h3 <;>
        exact ⟨by omega, by omega⟩
    case isFalse h50 =>
      rcases hmm : median l (a + (b-a)/4*1) (a + (b-a)/4*2) (a + (b-a)/4*3) 0
        with ⟨p, s4⟩
      have h4 := median_mem l (a + (b-a)/4*1) (a + (b-a)/4*2) (a + (b-a)/4*3) 0
      rw [hmm] at h4
      dsimp only at h4 ⊢
      rcases h4 with h | h | h <;> exact ⟨by omega, by omega⟩

theorem pdqPrep_seq (l : List Comment) (a b : Nat) (wb : Bool) (hab : a ≤ b) :
    SwapSeq a b l (pdqPrep l a b wb) := by
  unfold pdqPrep
  split
  · exact breakPatterns_seq l a b hab
  · exact .refl _

theorem pdqPivot_spec (l : List Comment) (a b : Nat) (h12 : 12 < b - a) :
    SwapSeq a b l (pdqPivot l a b).1 ∧
    a ≤ (pdqPivot l a b).2.1 ∧ (pdqPivot l a b).2.1 < b := by
  unfold pdqPivot
  dsimp only
  obtain ⟨hc1, hc2⟩ := choosePivot_range l a b h12
  split
  case isTrue h =>
    refine ⟨reverseRange_seq l a b (by omega), ?_, ?_⟩ <;>
      · dsimp only
        omega
  case isFalse h => exact ⟨.refl _, hc1, hc2⟩

theorem pdqPis_spec (l : List Comment) (a b : Nat) (wb wp : Bool)
    (hint : SortedHint) (hlen : b ≤ l.length) (hab : a < b) (hlb : leftBound l a b) :
    SwapSeq a b l (pdqPis l a b wb wp hint).1 ∧
    ((pdqPis l a b wb wp hint).2 = true →
      adjSorted (pdqPis l a b wb wp hint).1 a b) := by
  unfold pdqPis
  split
  · exact partialInsertionSort_spec l a b hlen hab hlb
  · exact ⟨.refl _, fun h => Bool.noConfusion h⟩

theorem partitionEqual_root (l : List Comment) (a b pivot : Nat)
    (hlen : b ≤ l.length) (hab : a < b) (_hpa : a ≤ pivot) (hpb : pivot < b) :
    lget (partitionEqual l a b pivot).1 a = lget l pivot := by
  unfold partitionEqual
  dsimp only
  obtain ⟨hs, h1, h2, h3, h4⟩ :=
    partitionEqualLoop_spec a b hab (b + 1) (lswap l a pivot) ((a : Int) + 1)
      ((b : Int) - 1) (by rw [lswap_length]; exact hlen)
      (le_refl _) (le_refl _) (by omega) (by omega)
      (fun m hm1 hm2 => by omega) (fun m hm1 hm2 => by omega)
  rw [hs.frame a (Or.inl (by omega)),
    lget_lswap l a pivot a (by omega) (by omega), if_pos rfl]

theorem pdqsortLoop_sorted :
    ∀ (fuel : Nat) (l : List Comment) (a b limit : Nat) (wb wp : Bool),
      b ≤ l.length → a ≤ b → b - a < fuel → leftBound l a b →
      SwapSeq a b l (pdqsortLoop l a b limit wb wp fuel) ∧
      adjSorted (pdqsortLoop l a b limit wb wp fuel) a b
  | 0, l, a, b, limit, wb, wp, hlen, hab, hfuel, hlb => by omega
  | fuel+1, l, a, b, limit, wb, wp, hlen, hab, hfuel, hlb => by
    rw [pdqsortLoop]
    dsimp only
    split
    case isTrue h12 => exact insertionSort_spec l a b hlen
    case isFalse h12 =>
    split
    case isTrue hlim => exact heapSort_spec l a b hlen hab
    case isFalse hlim =>
    have h12' : 12 < b - a := by omega
    set l₁ := pdqPrep l a b wb with hl₁
    have hs₁ : SwapSeq a b l l₁ := pdqPrep_seq l a b wb hab
    have hlen₁ : b ≤ l₁.length := by rw [hs₁.length]; exact hlen
    obtain ⟨hs₂, hpv1, hpv2⟩ := pdqPivot_spec l₁ a b h12'
    set pv := pdqPivot l₁ a b with hpv
    have hlen₂ : b ≤ pv.1.length := by rw [hs₂.length]; exact hlen₁
    have hlb₂ : leftBound pv.1 a b := leftBound_preserve (hs₁.trans hs₂) hlb
    obtain ⟨hs₃, hpis⟩ := pdqPis_spec pv.1 a b wb wp pv.2.2 hlen₂ (by omega) hlb₂
    set ps := pdqPis pv.1 a b wb wp pv.2.2 with hps
    have hseq0 : SwapSeq a b l ps.1 := (hs₁.trans hs₂).trans hs₃
    have hlen₃ : b ≤ ps.1.length := by rw [hseq0.length]; exact hlen
    have hlb₃ : leftBound ps.1 a b := leftBound_preserve hseq0 hlb
    split
    case isTrue hearly => exact ⟨hseq0, hpis hearly⟩
    case isFalse hearly =>
    split
    case isTrue hcond =>
      obtain ⟨ha0, hnl⟩ := hcond
      obtain ⟨hsE, hmid1, hmid2, hleft, hright⟩ :=
        partitionEqual_spec ps.1 a b pv.2.1 (by omega) hlen₃ hpv1 hpv2
      set pe := partitionEqual ps.1 a b pv.2.1 with hpe
      have hroot : lget pe.1 a = lget ps.1 pv.2.1 :=
        partitionEqual_root ps.1 a b pv.2.1 hlen₃ (by omega) hpv1 hpv2
      have hgeP : ∀ k, a ≤ k → k < b →
          (lget ps.1 pv.2.1).timestamp ≤ (lget ps.1 k).timestamp := by
        intro k hk1 hk2
        have h1 := hlb₃ ha0 k hk1 hk2
        have h2 : ¬ (lget ps.1 (a-1)).timestamp < (lget ps.1 pv.2.1).timestamp :=
          fun hh => hnl ((lless_iff _ _ _).mpr hh)
        exact le_trans (le_of_not_lt h2) h1
      have hgeP' : ∀ k, a ≤ k → k < b →
          (lget ps.1 pv.2.1).timestamp ≤ (lget pe.1 k).timestamp :=
        hsE.transport (fun c => (lget ps.1 pv.2.1).timestamp ≤ c.timestamp) hgeP
      have hEq : ∀ k, a ≤ k → k < pe.2 →
          (lget pe.1 k).timestamp = (lget ps.1 pv.2.1).timestamp := by
        intro k hk1 hk2
        have h1 := hleft k hk1 hk2
        rw [hroot] at h1
        have h2 := hgeP' k hk1 (by omega)
        omega
      have hlen₄ : b ≤ pe.1.length := by rw [hsE.length]; exact hlen₃
      obtain ⟨hsR, hsortR⟩ := pdqsortLoop_sorted fuel pe.1 pe.2 b
        (if ¬wb = true then limit - 1 else limit) wb wp hlen₄ (by omega) (by omega)
        (by
          intro h0 k hk1 hk2
          have he1 : (lget pe.1 (pe.2 - 1)).timestamp =
              (lget ps.1 pv.2.1).timestamp := hEq (pe.2 - 1) (by omega) (by omega)
          rw [he1]
          have h2 := hright k hk1 hk2
          rw [hroot] at h2
          exact le_of_lt h2)
      refine ⟨hseq0.trans (hsE.trans (hsR.mono (by omega) (le_refl b))), ?_⟩
      intro k hk1 hk2
      by_cases hc1 : k + 1 < pe.2
      · rw [hsR.frame k (Or.inl (by omega)), hsR.frame (k+1) (Or.inl hc1),
          hEq k (by omega) (by omega), hEq (k+1) (by omega) hc1]
      · by_cases hc2 : k + 1 = pe.2
        · rw [hsR.frame k (Or.inl (by omega)), hEq k (by omega) (by omega)]
          have hbase : ∀ m, pe.2 ≤ m → m < b →
              (lget ps.1 pv.2.1).timestamp < (lget pe.1 m).timestamp := by
            intro m hm1 hm2
            have := hright m hm1 hm2
            rwa [hroot] at this
          have hgt := hsR.transport
            (fun c => (lget ps.1 pv.2.1).timestamp < c.timestamp) hbase
            (k+1) (by omega) (by omega)
          exact le_of_lt hgt
        · exact hsortR k (by omega) hk2
    case isFalse hcond =>
      obtain ⟨hsP, hm1, hm2, hleft, hright⟩ :=
        partition_spec ps.1 a b pv.2.1 (by omega) hlen₃ hpv1 hpv2
      set pr := partition ps.1 a b pv.2.1 with hpr
      have hlen₄ : b ≤ pr.1.length := by rw [hsP.length]; exact hlen₃
      have hlbP : leftBound pr.1 a b := leftBound_preserve hsP hlb₃
      have hseqP : SwapSeq a b l pr.1 := hseq0.trans hsP
      split
      case isTrue hside =>
        obtain ⟨hsL, hsortL⟩ := pdqsortLoop_sorted fuel pr.1 a pr.2.1
          (if ¬wb = true then limit - 1 else limit) true true
          (by omega) (by omega) (by omega)
          (fun h0 k hk1 hk2 => hlbP h0 k hk1 (by omega))
        set resL := pdqsortLoop pr.1 a pr.2.1
          (if ¬wb = true then limit - 1 else limit) true true fuel with hresL
        have hlenL : b ≤ resL.length := by rw [hsL.length]; exact hlen₄
        obtain ⟨hsR, hsortR⟩ := pdqsortLoop_sorted fuel resL (pr.2.1 + 1) b
          (if ¬wb = true then limit - 1 else limit)
          (decide (min (pr.2.1 - a) (b - pr.2.1) ≥ (b - a) / 8)) pr.2.2
          hlenL (by omega) (by omega)
          (by
            intro h0 k hk1 hk2
            rw [hsL.frame (pr.2.1 + 1 - 1) (Or.inr (by omega)),
              hsL.frame k (Or.inr (by omega))]
            exact hright k (by omega) hk2)
        refine ⟨hseqP.trans ((hsL.mono (le_refl a) (by omega)).trans
          (hsR.mono (by omega) (le_refl b))), ?_⟩
        have hLlt : ∀ k, a ≤ k → k < pr.2.1 →
            (lget resL k).timestamp < (lget pr.1 pr.2.1).timestamp :=
          hsL.transport (fun c => c.timestamp < (lget pr.1 pr.2.1).timestamp) hleft
        intro k hk1 hk2
        by_cases hc1 : k + 1 < pr.2.1
        · rw [hsR.frame k (Or.inl (by omega)), hsR.frame (k+1) (Or.inl (by omega))]
          exact hsortL k hk1 hc1
        · by_cases hc2 : k + 1 = pr.2.1
          · rw [hsR.frame k (Or.inl (by omega)), hsR.frame (k+1) (Or.inl (by omega)),
              hc2, hsL.frame pr.2.1 (Or.inr (le_refl _))]
            exact le_of_lt (hLlt k hk1 (by omega))
          · by_cases hc3 : k = pr.2.1
            · rw [hsR.frame k (Or.inl (by omega)), hc3,
                hsL.frame pr.2.1 (Or.inr (le_refl _))]
              have hbase : ∀ m, pr.2.1 + 1 ≤ m → m < b →
                  (lget pr.1 pr.2.1).timestamp ≤ (lget resL m).timestamp := by
                intro m hm1 hm2
                rw [hsL.frame m (Or.inr (by omega))]
                exact hright m (by omega) hm2
              exact hsR.transport
                (fun c => (lget pr.1 pr.2.1).timestamp ≤ c.timestamp) hbase
                (pr.2.1+1) (by omega) (by omega)
            · exact hsortR k (by omega) hk2
      case isFalse hside =>
        obtain ⟨hsR, hsortR⟩ := pdqsortLoop_sorted fuel pr.1 (pr.2.1 + 1) b
          (if ¬wb = true then limit - 1 else limit) true true
          hlen₄ (by omega) (by omega)
          (by
            intro h0 k hk1 hk2
            exact hright k (by omega) hk2)
        set resR := pdqsortLoop pr.1 (pr.2.1 + 1) b
          (if ¬wb = true then limit - 1 else limit) true true fuel with hresR
        have hlenR : pr.2.1 ≤ resR.length := by rw [hsR.length]; omega
        obtain ⟨hsL, hsortL⟩ := pdqsortLoop_sorted fuel resR a pr.2.1
          (if ¬wb = true then limit - 1 else limit)
          (decide (min (pr.2.1 - a) (b - pr.2.1) ≥ (b - a) / 8)) pr.2.2
          hlenR (by omega) (by omega)
          (by
            intro h0 k hk1 hk2
            have hlbR : leftBound resR a b :=
              leftBound_preserve (hsR.mono (by omega) (le_refl b)) hlbP
            exact hlbR h0 k hk1 (by omega))
        refine ⟨hseqP.trans ((hsR.mono (by omega) (le_refl b)).trans
          (hsL.mono (le_refl a) (by omega))), ?_⟩
        have hRfr : ∀ m, m < pr.2.1 + 1 → lget resR m = lget pr.1 m :=
          fun m hm => hsR.frame m (Or.inl hm)
        have hLlt : ∀ k, a ≤ k → k < pr.2.1 →
            (lget (pdqsortLoop resR a pr.2.1
              (if ¬wb = true then limit - 1 else limit)
              (decide (min (pr.2.1 - a) (b - pr.2.1) ≥ (b - a) / 8)) pr.2.2 fuel)
              k).timestamp < (lget pr.1 pr.2.1).timestamp := by
          have hbase : ∀ m, a ≤ m → m < pr.2.1 →
              (lget resR m).timestamp < (lget pr.1 pr.2.1).timestamp := by
            intro m hm1 hm2
            rw [hRfr m (by omega)]
            exact hleft m hm1 hm2
          exact hsL.transport
            (fun c => c.timestamp < (lget pr.1 pr.2.1).timestamp) hbase
        intro k hk1 hk2
        by_cases hc1 : k + 1 < pr.2.1
        · exact hsortL k hk1 hc1
        · by_cases hc2 : k + 1 = pr.2.1
          · rw [hc2, hsL.frame pr.2.1 (Or.inr (le_refl _)), hRfr pr.2.1 (by omega)]
            exact le_of_lt (hLlt k hk1 (by omega))
          · by_cases hc3 : k = pr.2.1
            · rw [hc3, hsL.frame pr.2.1 (Or.inr (le_refl _)), hRfr pr.2.1 (by omega),
                hsL.frame (pr.2.1+1) (Or.inr (by omega))]
              exact hsR.transport
                (fun c => (lget pr.1 pr.2.1).timestamp ≤ c.timestamp)
                (fun m hm1 hm2 => hright m (by omega) hm2)
                (pr.2.1+1) (by omega) (by omega)
            · rw [hsL.frame k (Or.inr (by omega)), hsL.frame (k+1) (Or.inr (by omega))]
              exact hsortR k (by omega) hk2

theorem goSort_sorted (l : List Comment) :
    adjSorted (goSort l) 0 (goSort l).length := by
  unfold goSort
  dsimp only
  split
  case isTrue h => exact adjSorted_trivial l (by omega)
  case isFalse h =>
    have hfuel : l.length - 0 < (l.length + 2) * (l.length + 2) := by
      calc l.length - 0 < l.length + 2 := by omega
        _ ≤ (l.length + 2) * (l.length + 2) :=
          Nat.le_mul_of_pos_left _ (by omega)
    obtain ⟨hs, hsorted⟩ := pdqsortLoop_sorted ((l.length + 2) * (l.length + 2))
      l 0 l.length (goBitsLen l.length) true true (le_refl _) (by omega) hfuel
      (fun h0 => absurd h0 (lt_irrefl 0))
    rw [hs.length]
    exact hsorted

theorem nonDecreasingTs_iff : ∀ (l : List Comment),
    nonDecreasingTs l = true ↔ adjSorted l 0 l.length
  | [] => ⟨fun _ => adjSorted_trivial _ (by simp), fun _ => rfl⟩
  | [x] => ⟨fun _ => adjSorted_trivial _ (by simp), fun _ => rfl⟩
  | x :: y :: rest => by
    rw [nonDecreasingTs, Bool.and_eq_true, decide_eq_true_eq]
    constructor
    · rintro ⟨h1, h2⟩
      have ih := (nonDecreasingTs_iff (y :: rest)).mp h2
      intro k hk0 hk1
      cases k with
      | zero => exact h1
      | succ k =>
        have hk1' : k + 1 < (y :: rest).length := by
          have hl : (x :: y :: rest).length = (y :: rest).length + 1 := rfl
          rw [hl] at hk1
          omega
        exact ih k (by omega) hk1'
    · intro h
      have ih := (nonDecreasingTs_iff (y :: rest)).mpr
      refine ⟨h 0 (by omega) ?_, ih ?_⟩
      · show 0 + 1 < rest.length + 1 + 1
        omega
      · intro k hk0 hk1
        have hk1' : k + 1 + 1 < (x :: y :: rest).length := by
          have hl : (x :: y :: rest).length = (y :: rest).length + 1 := rfl
          rw [hl]
          omega
        exact h (k+1) (by omega) hk1'

theorem goSort_nonDecreasing (l : List Comment) :
    nonDecreasingTs (goSort l) = true :=
  (nonDecreasingTs_iff (goSort l)).mpr (goSort_sorted l)

/-! ## Claim theorems -/

theorem hasIncident_true_iff (s : DBState) (id : String) :
    hasIncident s id = true ↔ ∃ r ∈ s.incidents, r.id = id := by
  unfold hasIncident
  cases hf : s.incidents.find? (fun r => decide (r.id = id)) with
  | none =>
    simp only [Bool.false_eq_true, false_iff]
    rintro ⟨r, hr, hid⟩
    have := List.find?_eq_none.mp hf r hr
    simp [hid] at this
  | some r =>
    have h1 := List.find?_some hf
    have h2 := List.mem_of_find?_eq_some hf
    simp only [decide_eq_true_eq] at h1
    simp only [h1]
    simp only [decide_eq_true_eq, true_iff]
    exact ⟨r, h2, h1⟩

theorem resolution_roundtrip (res : Resolution) :
    resolutionOfValue (resolutionValueLookup (resolutionString res)) = res := by
  cases res <;> rfl

/-- C2 helper -/
theorem create_ok_shape (s : DBState) (i : Incident) (s' : DBState)
    (h : SaveIncident s i = .ok s') :
    hasIncident s i.id = false ∧
    s' = { s with incidents := s.incidents ++
      [{ id := i.id, timestamp := i.timestamp, description := i.description,
         lat := i.coordinates.lat, lon := i.coordinates.lon,
         resolution := resolutionString i.resolution, image := i.imageId }] } := by
  unfold SaveIncident at h
  split at h
  · cases h
  · next hni =>
    refine ⟨by simpa using hni, ?_⟩
    cases h
    rfl

/-- Claim C2: creating an incident whose id already exists fails with
`AlreadyExists`, leaves the store unchanged (the transaction rolls back), and
the store still contains exactly one row with that id. -/
theorem createDuplicateFails (s0 s : DBState) (i : Incident)
    (hid : i.id ≠ "") (hc : SaveIncident s0 i = .ok s) :
    SaveIncident s i = Except.error DBError.alreadyExists ∧
    applyTx s (SaveIncident s i) = s ∧
    s.incidents.filter (fun r => r.id = i.id) =
      [{ id := i.id, timestamp := i.timestamp, description := i.description,
         lat := i.coordinates.lat, lon := i.coordinates.lon,
         resolution := resolutionString i.resolution, image := i.imageId }] := by
  obtain ⟨hni, hs⟩ := create_ok_shape s0 i s hc
  have hfalse : ∀ r ∈ s0.incidents, ¬ r.id = i.id := by
    intro r hr hrid
    have := (hasIncident_true_iff s0 i.id).mpr ⟨r, hr, hrid⟩
    rw [hni] at this
    cases this
  have hhas : hasIncident s i.id = true := by
    refine (hasIncident_true_iff s i.id).mpr
      ⟨{ id := i.id, timestamp := i.timestamp, description := i.description,
         lat := i.coordinates.lat, lon := i.coordinates.lon,
         resolution := resolutionString i.resolution, image := i.imageId }, ?_, rfl⟩
    rw [hs]
    exact List.mem_append_right _ (List.mem_singleton_self _)
  have herr : SaveIncident s i = Except.error DBError.alreadyExists := by
    unfold SaveIncident
    rw [if_pos (by simpa using hhas)]
  refine ⟨herr, by rw [herr]; rfl, ?_⟩
  rw [hs]
  simp only [List.filter_append]
  have h0 : s0.incidents.filter (fun r => decide (r.id = i.id)) = [] := by
    rw [List.filter_eq_nil_iff]
    intro r hr
    simpa using hfalse r hr
  simp [h0]

/-- Witness for C2 at a concrete one-incident store. -/
theorem createDuplicateFails_witness :
    SaveIncident exC2state exC2inc = Except.error DBError.alreadyExists ∧
    applyTx exC2state (SaveIncident exC2state exC2inc) = exC2state ∧
    exC2state.incidents.filter (fun r => r.id = exC2inc.id) =
      [{ id := exC2inc.id, timestamp := exC2inc.timestamp,
         description := exC2inc.description,
         lat := exC2inc.coordinates.lat, lon := exC2inc.coordinates.lon,
         resolution := resolutionString exC2inc.resolution,
         image := exC2inc.imageId }] :=
  createDuplicateFails ⟨[], [], []⟩ exC2state exC2inc (by decide) (by rfl)

/-- Claim C1: for an existing incident, `SaveReview` atomically (in one
transaction) sets the incident's stored resolution to the given value and
appends exactly one comment row carrying that resolution snapshot and the
caller comment's author, message and timestamp under the freshly generated
id; for an absent incident it fails with `DoesNotExist` and the rolled-back
transaction changes nothing. -/
theorem reviewAtomic (s : DBState) (genId id : String) (res : Resolution) (c : Comment) :
    ((∃ r ∈ s.incidents, r.id = id) →
      (∀ cr ∈ s.comments, cr.id ≠ genId) →
      ∃ s', SaveReview s genId id res c = Except.ok s' ∧
        s'.incidents = s.incidents.map (fun r =>
          if r.id = id then { r with resolution := resolutionString res } else r) ∧
        (∀ r ∈ s'.incidents, r.id = id → r.resolution = resolutionString res) ∧
        s'.comments = s.comments ++
          [{ id := genId, incident_id := id, timestamp := c.timestamp,
             author := c.authorId, comment := c.message,
             resolution := resolutionString res }] ∧
        s'.comments.length = s.comments.length + 1 ∧
        s'.sessions = s.sessions) ∧
    ((∀ r ∈ s.incidents, r.id ≠ id) →
      SaveReview s genId id res c = Except.error DBError.doesNotExist ∧
      applyTx s (SaveReview s genId id res c) = s) := by
  constructor
  · intro hex hfresh
    have hhas : hasIncident s id = true := (hasIncident_true_iff s id).mpr hex
    have hany : s.comments.any (fun cr => cr.id = genId) = false := by
      rw [List.any_eq_false]
      intro cr hcr
      simpa using hfresh cr hcr
    have hok : SaveReview s genId id res c = Except.ok
        { s with
          incidents := s.incidents.map (fun r =>
            if r.id = id then { r with resolution := resolutionString res } else r)
          comments := s.comments ++
            [{ id := genId, incident_id := id, timestamp := c.timestamp,
               author := c.authorId, comment := c.message,
               resolution := resolutionString res }] } := by
      unfold SaveReview
      rw [if_neg (by simp [hhas]), if_neg (by simp [hany])]
    refine ⟨_, hok, rfl, ?_, rfl, by simp, rfl⟩
    · intro r hr hrid
      rw [List.mem_map] at hr
      obtain ⟨r0, hr0, hfr⟩ := hr
      by_cases h0 : r0.id = id
      · rw [if_pos h0] at hfr
        rw [← hfr]
      · rw [if_neg h0] at hfr
        rw [← hfr] at hrid
        exact absurd hrid h0
  · intro hnone
    have hhas : hasIncident s id = false := by
      cases hh : hasIncident s id
      · rfl
      · obtain ⟨r, hr, hrid⟩ := (hasIncident_true_iff s id).mp hh
        exact absurd hrid (hnone r hr)
    have herr : SaveReview s genId id res c = Except.error DBError.doesNotExist := by
      unfold SaveReview
      rw [if_pos (by simp [hhas])]
    exact ⟨herr, by rw [herr]; rfl⟩

/-- Witness for C1 at a concrete one-incident store. -/
theorem reviewAtomic_witness :
    ∃ s', SaveReview exC2state "uuid-1" "inc-1" .RESOLUTION_ACCEPTED
        { timestamp := 50, authorId := "alice", message := "ok",
          resolution := .RESOLUTION_UNSPECIFIED } = Except.ok s' ∧
      s'.incidents = exC2state.incidents.map (fun r =>
        if r.id = "inc-1" then
          { r with resolution := resolutionString .RESOLUTION_ACCEPTED } else r) ∧
      (∀ r ∈ s'.incidents, r.id = "inc-1" →
        r.resolution = resolutionString .RESOLUTION_ACCEPTED) ∧
      s'.comments = exC2state.comments ++
        [{ id := "uuid-1", incident_id := "inc-1", timestamp := 50,
           author := "alice", comment := "ok",
           resolution := resolutionString .RESOLUTION_ACCEPTED }] ∧
      s'.comments.length = exC2state.comments.length + 1 ∧
      s'.sessions = exC2state.sessions :=
  (reviewAtomic exC2state "uuid-1" "inc-1" .RESOLUTION_ACCEPTED
    { timestamp := 50, authorId := "alice", message := "ok",
      resolution := .RESOLUTION_UNSPECIFIED }).1
    (by exact ⟨_, List.mem_singleton_self _, rfl⟩)
    (by intro cr hcr; cases hcr)

/-- Claim C8: `IsValidSession` runs no write statement (it is a pure
function of the state in this model); it fails with the wrapped-`ErrNoRows`
scan error when the token was never saved — an error distinct from the
expired error — fails with the expired error when `now > expiry`, and
succeeds exactly when the token is stored with `now ≤ expiry`. -/
theorem isValidSession_spec (s : DBState) (now : Int) (token : String) :
    (IsValidSession s now token = Except.ok () ↔
      ∃ r, s.sessions.find? (fun q => q.id = token) = some r ∧ now ≤ r.expiry) ∧
    ((∀ r ∈ s.sessions, r.id ≠ token) →
      IsValidSession s now token = Except.error DBError.scanNoRows) ∧
    (∀ r, s.sessions.find? (fun q => q.id = token) = some r → now > r.expiry →
      IsValidSession s now token = Except.error DBError.sessionExpired) ∧
    DBError.scanNoRows ≠ DBError.sessionExpired := by
  have hunfold : IsValidSession s now token =
      match s.sessions.find? (fun q => q.id = token) with
      | none => .error .scanNoRows
      | some r => if now > r.expiry then .error .sessionExpired else .ok () := rfl
  refine ⟨?_, ?_, ?_, by decide⟩
  · rw [hunfold]
    cases hf : s.sessions.find? (fun q => decide (q.id = token)) with
    | none =>
      dsimp only
      constructor
      · intro h; cases h
      · rintro ⟨r, hr, _⟩
        simp at hr
    | some r =>
      dsimp only
      constructor
      · intro h
        refine ⟨r, rfl, ?_⟩
        by_contra hlt
        rw [if_pos (by omega)] at h
        cases h
      · rintro ⟨r', hr', hle⟩
        injection hr' with hr'
        subst hr'
        rw [if_neg (by omega)]
  · intro hnone
    have hfn : s.sessions.find? (fun q => decide (q.id = token)) = none := by
      rw [List.find?_eq_none]
      intro r hr
      simpa using hnone r hr
    rw [hunfold, hfn]
  · intro r hfind hgt
    rw [hunfold, hfind]
    dsimp only
    rw [if_pos hgt]

/-- Witness for C8 on a concrete session store. -/
theorem isValidSession_witness :
    IsValidSession exC8state 50 "tok" = Except.ok () ∧
    IsValidSession exC8state 50 "other" = Except.error DBError.scanNoRows ∧
    IsValidSession exC8state 101 "tok" = Except.error DBError.sessionExpired :=
  ⟨(isValidSession_spec exC8state 50 "tok").1.mpr ⟨⟨"tok", 100⟩, by decide, by decide⟩,
   (isValidSession_spec exC8state 50 "other").2.1 (by decide),
   (isValidSession_spec exC8state 101 "tok").2.2.1 ⟨"tok", 100⟩ (by decide) (by decide)⟩

/-- Claim C9 (amended): `SaveSession` stores the token with
`expiry = now + 3600` (one hour) and performs no explicit existence check,
but the `sessions.id` PRIMARY KEY makes re-saving an already stored token
fail with a constraint error, leaving a single row — no duplicate row is
created. -/
theorem saveSession_spec (s : DBState) (now : Int) (token : String) :
    ((∀ r ∈ s.sessions, r.id ≠ token) →
      SaveSession s now token = Except.ok
        { s with sessions := s.sessions ++ [{ id := token, expiry := now + 3600 }] }) ∧
    ((∃ r ∈ s.sessions, r.id = token) →
      SaveSession s now token = Except.error DBError.uniqueConstraintFailed ∧
      applyTx s (SaveSession s now token) = s) := by
  constructor
  · intro hfresh
    unfold SaveSession
    rw [if_neg]
    intro hany
    rw [List.any_eq_true] at hany
    obtain ⟨r, hr, hid⟩ := hany
    exact hfresh r hr (by simpa using hid)
  · rintro ⟨r, hr, hid⟩
    have hany : s.sessions.any (fun q => q.id = token) = true := by
      rw [List.any_eq_true]
      exact ⟨r, hr, by simpa using hid⟩
    have herr : SaveSession s now token = Except.error DBError.uniqueConstraintFailed := by
      unfold SaveSession
      rw [if_pos (by simpa using hany)]
    exact ⟨herr, by rw [herr]; rfl⟩

/-- Witness for C9 on concrete session stores. -/
theorem saveSession_witness :
    SaveSession ⟨[], [], []⟩ 7 "tok" = Except.ok
      { incidents := [], comments := [],
        sessions := [{ id := "tok", expiry := 7 + 3600 }] } ∧
    SaveSession exC8state 7 "tok" = Except.error DBError.uniqueConstraintFailed ∧
    applyTx exC8state (SaveSession exC8state 7 "tok") = exC8state :=
  ⟨by
    have h := (saveSession_spec ⟨[], [], []⟩ 7 "tok").1 (by intro r hr; cases hr)
    simpa using h,
   ((saveSession_spec exC8state 7 "tok").2 ⟨⟨"tok", 100⟩, by decide, rfl⟩).1,
   ((saveSession_spec exC8state 7 "tok").2 ⟨⟨"tok", 100⟩, by decide, rfl⟩).2⟩

/-- Counterexample to C9 as stated: after saving token "t", re-saving it
does not succeed with a duplicate row — the insert hits the `sessions.id`
primary key and fails, and the store keeps exactly one row. -/
theorem saveSession_cex :
    SaveSession ⟨[], [], []⟩ 0 "t" = Except.ok exC9dup ∧
    SaveSession exC9dup 7 "t" = Except.error DBError.uniqueConstraintFailed ∧
    (applyTx exC9dup (SaveSession exC9dup 7 "t")).sessions.length = 1 := by
  refine ⟨by decide, by decide, by decide⟩

/-- Helper: membership in `IncidentsInRegion`. -/
theorem inRegion_mem_iff (s : DBState) (since : Int) (region : Region) (inc : Incident) :
    inc ∈ okList (IncidentsInRegion s since region) ↔
      ∃ r ∈ s.incidents,
        (r.resolution = resolutionString .RESOLUTION_ACCEPTED ∨
         r.resolution = resolutionString .RESOLUTION_ALERTED) ∧
        r.timestamp > since ∧
        r.lat < (region.north.tdiv 100 : ℚ) ∧
        r.lat > (region.south.tdiv 100 : ℚ) ∧
        r.lon > (region.west.tdiv 100 : ℚ) ∧
        r.lon < (region.east.tdiv 100 : ℚ) ∧
        scanIncident r = inc := by
  unfold IncidentsInRegion okList
  simp only [List.mem_map, List.mem_filter, decide_eq_true_eq]
  constructor
  · rintro ⟨r, ⟨hr, hc⟩, hscan⟩
    exact ⟨r, hr, hc.1, hc.2.1, hc.2.2.1, hc.2.2.2.1, hc.2.2.2.2.1, hc.2.2.2.2.2, hscan⟩
  · rintro ⟨r, hr, h1, h2, h3, h4, h5, h6, hscan⟩
    exact ⟨r, ⟨hr, h1, h2, h3, h4, h5, h6⟩, hscan⟩

/-- Helper: membership in `AlertingIncidents`. -/
theorem alerting_mem_iff (s : DBState) (since : Int) (region : Region) (inc : Incident) :
    inc ∈ okList (AlertingIncidents s since region) ↔
      ∃ r ∈ s.incidents,
        r.resolution = resolutionString .RESOLUTION_ALERTED ∧
        r.timestamp > since ∧
        r.lat < (region.north.tdiv 100 : ℚ) ∧
        r.lat > (region.south.tdiv 100 : ℚ) ∧
        r.lon > (region.west.tdiv 100 : ℚ) ∧
        r.lon < (region.east.tdiv 100 : ℚ) ∧
        scanIncident r = inc := by
  unfold AlertingIncidents okList
  simp only [List.mem_map, List.mem_filter, decide_eq_true_eq]
  constructor
  · rintro ⟨r, ⟨hr, hc⟩, hscan⟩
    exact ⟨r, hr, hc.1, hc.2.1, hc.2.2.1, hc.2.2.2.1, hc.2.2.2.2.1, hc.2.2.2.2.2, hscan⟩
  · rintro ⟨r, hr, h1, h2, h3, h4, h5, h6, hscan⟩
    exact ⟨r, ⟨hr, h1, h2, h3, h4, h5, h6⟩, hscan⟩

/-- Helper: membership in `IncidentsInRadius`. -/
theorem inRadius_mem_iff (dist : ℚ → ℚ → ℚ → ℚ → ℚ) (s : DBState)
    (center : Coordinates) (radius : ℚ) (inc : Incident) :
    inc ∈ okList (IncidentsInRadius dist s center radius) ↔
      ∃ r ∈ s.incidents,
        (r.resolution = resolutionString .RESOLUTION_ACCEPTED ∨
         r.resolution = resolutionString .RESOLUTION_ALERTED) ∧
        dist center.lat center.lon r.lat r.lon ≤ radius ∧
        scanIncident r = inc := by
  unfold IncidentsInRadius okList
  simp only [List.mem_filter, List.mem_map, decide_eq_true_eq]
  constructor
  · rintro ⟨⟨r, ⟨hr, hres⟩, hscan⟩, hdist⟩
    refine ⟨r, hr, hres, ?_, hscan⟩
    rw [not_lt] at hdist
    rw [← hscan] at hdist
    exact hdist
  · rintro ⟨r, hr, hres, hdist, hscan⟩
    refine ⟨⟨r, ⟨hr, hres⟩, hscan⟩, ?_⟩
    rw [not_lt, ← hscan]
    exact hdist

/-- Counterexample to C3 as stated: a stored incident whose latitude is
exactly the descaled southern bound, satisfying every other condition of the
region query, is NOT returned — the southern bound is strict, not
non-strict as claimed. -/
theorem regionSouthBound_cex :
    exC3rowS ∈ exC3state.incidents ∧
    exC3rowS.lat = ((exC3region.south.tdiv 100 : Int) : ℚ) ∧
    exC3rowS.resolution = resolutionString .RESOLUTION_ACCEPTED ∧
    exC3rowS.timestamp > 0 ∧
    exC3rowS.lat < ((exC3region.north.tdiv 100 : Int) : ℚ) ∧
    exC3rowS.lon > ((exC3region.west.tdiv 100 : Int) : ℚ) ∧
    exC3rowS.lon < ((exC3region.east.tdiv 100 : Int) : ℚ) ∧
    scanIncident exC3rowS ∉ okList (IncidentsInRegion exC3state 0 exC3region) := by
  decide

/-- Claim C3 (amended): in `IncidentsInRegion` the since bound is strict
and ALL four (descaled) coordinate bounds are strict: membership requires
`timestamp > since`, `lat < north/100`, `lat > south/100`, `lon > west/100`
and `lon < east/100`, so an incident at exactly the southern latitude bound
is excluded just like one at exactly the northern bound (concretely, the
store holding rows at lat 0 and lat 10 yields nothing for the box
south=0, north=1000 pre-scaled). -/
theorem regionBoundsAllStrict (s : DBState) (since : Int) (region : Region)
    (inc : Incident) :
    (inc ∈ okList (IncidentsInRegion s since region) ↔
      ∃ r ∈ s.incidents,
        (r.resolution = resolutionString .RESOLUTION_ACCEPTED ∨
         r.resolution = resolutionString .RESOLUTION_ALERTED) ∧
        r.timestamp > since ∧
        r.lat < (region.north.tdiv 100 : ℚ) ∧
        r.lat > (region.south.tdiv 100 : ℚ) ∧
        r.lon > (region.west.tdiv 100 : ℚ) ∧
        r.lon < (region.east.tdiv 100 : ℚ) ∧
        scanIncident r = inc) ∧
    okList (IncidentsInRegion exC3state 0 exC3region) = [] := by
  exact ⟨inRegion_mem_iff s since region inc, by decide⟩

/-- Claim C7: `IncidentsInRegion` and `AlertingIncidents` compare stored
coordinates against `North/100`, `South/100`, `West/100`, `East/100`
(integer division by the fixed divisor 100), so an incident stored at
lat=5.0 raw degrees matches only a caller-supplied pre-scaled region
(North=1000 etc.), not the raw-degree region (North=10 etc.). -/
theorem regionBoundsScaledBy100 (s : DBState) (since : Int) (region : Region)
    (inc : Incident) :
    (inc ∈ okList (IncidentsInRegion s since region) ↔
      ∃ r ∈ s.incidents,
        (r.resolution = resolutionString .RESOLUTION_ACCEPTED ∨
         r.resolution = resolutionString .RESOLUTION_ALERTED) ∧
        r.timestamp > since ∧
        r.lat < (region.north.tdiv 100 : ℚ) ∧
        r.lat > (region.south.tdiv 100 : ℚ) ∧
        r.lon > (region.west.tdiv 100 : ℚ) ∧
        r.lon < (region.east.tdiv 100 : ℚ) ∧
        scanIncident r = inc) ∧
    (inc ∈ okList (AlertingIncidents s since region) ↔
      ∃ r ∈ s.incidents,
        r.resolution = resolutionString .RESOLUTION_ALERTED ∧
        r.timestamp > since ∧
        r.lat < (region.north.tdiv 100 : ℚ) ∧
        r.lat > (region.south.tdiv 100 : ℚ) ∧
        r.lon > (region.west.tdiv 100 : ℚ) ∧
        r.lon < (region.east.tdiv 100 : ℚ) ∧
        scanIncident r = inc) ∧
    okList (IncidentsInRegion exC7state 0
      { north := 1000, south := -1000, west := -1000, east := 1000 }) =
      [scanIncident exC7rowA, scanIncident exC7rowB] ∧
    okList (IncidentsInRegion exC7state 0
      { north := 10, south := -10, west := -10, east := 10 }) = [] ∧
    okList (AlertingIncidents exC7state 0
      { north := 1000, south := -1000, west := -1000, east := 1000 }) =
      [scanIncident exC7rowB] ∧
    okList (AlertingIncidents exC7state 0
      { north := 10, south := -10, west := -10, east := 10 }) = [] := by
  exact ⟨inRegion_mem_iff s since region inc, alerting_mem_iff s since region inc,
    by decide, by decide, by decide, by decide⟩

/-- Claim C6: `IncidentsInRadius` returns exactly the stored incidents whose
resolution label is `RESOLUTION_ACCEPTED` or `RESOLUTION_ALERTED` and whose
distance from the center (per the supplied pure distance function) is at most
the radius; anything farther is discarded, and every returned incident's
decoded resolution is `ACCEPTED` or `ALERTED` — never `UNSPECIFIED` or
`REJECTED`. -/
theorem radiusFilter (dist : ℚ → ℚ → ℚ → ℚ → ℚ) (s : DBState)
    (center : Coordinates) (radius : ℚ) (inc : Incident) :
    (inc ∈ okList (IncidentsInRadius dist s center radius) ↔
      ∃ r ∈ s.incidents,
        (r.resolution = resolutionString .RESOLUTION_ACCEPTED ∨
         r.resolution = resolutionString .RESOLUTION_ALERTED) ∧
        dist center.lat center.lon r.lat r.lon ≤ radius ∧
        scanIncident r = inc) ∧
    (∀ inc' ∈ okList (IncidentsInRadius dist s center radius),
      inc'.resolution = Resolution.RESOLUTION_ACCEPTED ∨
      inc'.resolution = Resolution.RESOLUTION_ALERTED) := by
  refine ⟨inRadius_mem_iff dist s center radius inc, ?_⟩
  intro inc' hmem
  obtain ⟨r, _, hres, _, hscan⟩ := (inRadius_mem_iff dist s center radius inc').mp hmem
  rcases hres with h | h
  · left
    rw [← hscan]
    show resolutionOfValue (resolutionValueLookup r.resolution) = _
    rw [h]
    rfl
  · right
    rw [← hscan]
    show resolutionOfValue (resolutionValueLookup r.resolution) = _
    rw [h]
    rfl

/-- Claim C10: a stored resolution string that is none of the canonical
labels decodes to `RESOLUTION_UNSPECIFIED` (the `Resolution_value` lookup
falls back to the zero enum value), every read path decodes it that way
(`scanIncident`, hence `ViewIncident` on such a row succeeds with
`UNSPECIFIED`), and none of the five read operations fails on a store
containing such a row. -/
theorem unknownResolutionFallsBack (s : DBState) (str : String)
    (hstr : ∀ res : Resolution, str ≠ resolutionString res) :
    resolutionOfValue (resolutionValueLookup str) = Resolution.RESOLUTION_UNSPECIFIED ∧
    (∀ r ∈ s.incidents, r.resolution = str →
      (scanIncident r).resolution = Resolution.RESOLUTION_UNSPECIFIED) ∧
    (∀ id r, s.incidents.find? (fun row => row.id = id) = some r →
      r.resolution = str →
      ∃ inc, ViewIncident s id = Except.ok inc ∧
        inc.resolution = Resolution.RESOLUTION_UNSPECIFIED) ∧
    (∃ out, IncidentsWithoutReview s = Except.ok out) ∧
    (∀ (dist : ℚ → ℚ → ℚ → ℚ → ℚ) (center : Coordinates) (radius : ℚ),
      ∃ out, IncidentsInRadius dist s center radius = Except.ok out) ∧
    (∀ (since : Int) (region : Region),
      ∃ out, IncidentsInRegion s since region = Except.ok out) ∧
    (∀ (since : Int) (region : Region),
      ∃ out, AlertingIncidents s since region = Except.ok out) := by
  have hlookup : resolutionValueLookup str = 0 := by
    unfold resolutionValueLookup Resolution_value
    have h0 := hstr .RESOLUTION_UNSPECIFIED
    have h1 := hstr .RESOLUTION_ACCEPTED
    have h2 := hstr .RESOLUTION_ALERTED
    have h3 := hstr .RESOLUTION_REJECTED
    simp only [resolutionString] at h0 h1 h2 h3
    simp [List.find?, Ne.symm h0, Ne.symm h1, Ne.symm h2, Ne.symm h3]
  have hfall : resolutionOfValue (resolutionValueLookup str) =
      Resolution.RESOLUTION_UNSPECIFIED := by
    rw [hlookup]
    rfl
  refine ⟨hfall, ?_, ?_, ⟨_, rfl⟩, fun _ _ _ => ⟨_, rfl⟩,
    fun _ _ => ⟨_, rfl⟩, fun _ _ => ⟨_, rfl⟩⟩
  · intro r _ hres
    show resolutionOfValue (resolutionValueLookup r.resolution) = _
    rw [hres]
    exact hfall
  · intro id r hfind hres
    have fetched : List Comment :=
      (s.comments.filter (fun c => c.incident_id = id)).map
        (fun c => { timestamp := c.timestamp, authorId := c.author,
                    message := c.comment,
                    resolution := Resolution.RESOLUTION_UNSPECIFIED })
    refine ⟨{ scanIncident r with
              reviewerComments := goSort ((scanIncident r).reviewerComments ++
                (s.comments.filter (fun c => c.incident_id = id)).map
                  (fun c => { timestamp := c.timestamp, authorId := c.author,
                              message := c.comment,
                              resolution := Resolution.RESOLUTION_UNSPECIFIED })) },
      ?_, ?_⟩
    · unfold ViewIncident
      rw [hfind]
    · show resolutionOfValue (resolutionValueLookup r.resolution) = _
      rw [hres]
      exact hfall

/-- Witness for C10 at a store holding a row with resolution "bogus". -/
theorem unknownResolutionFallsBack_witness :
    ∃ inc, ViewIncident exC10state "b1" = Except.ok inc ∧
      inc.resolution = Resolution.RESOLUTION_UNSPECIFIED :=
  (unknownResolutionFallsBack exC10state "bogus"
    (by intro res; cases res <;> decide)).2.2.1 "b1" exC10row (by decide) rfl

/-- Helper: shape of a successful `SaveReview`. -/
theorem review_ok_shape (s : DBState) (genId id : String) (res : Resolution)
    (c : Comment) (s' : DBState) (h : SaveReview s genId id res c = .ok s') :
    hasIncident s id = true ∧
    s' = { s with
      incidents := s.incidents.map (fun r =>
        if r.id = id then { r with resolution := resolutionString res } else r)
      comments := s.comments ++
        [{ id := genId, incident_id := id, timestamp := c.timestamp,
           author := c.authorId, comment := c.message,
           resolution := resolutionString res }] } := by
  unfold SaveReview at h
  split at h
  · cases h
  · next hni =>
    split at h
    · cases h
    · refine ⟨by simpa using hni, ?_⟩
      cases h
      rfl

/-- Helper: `find?` over the resolution-updating map. -/
theorem find?_update_map (l : List IncidentRow) (id : String) (res : Resolution) :
    (l.map (fun r => if r.id = id then
        { r with resolution := resolutionString res } else r)).find?
      (fun r => r.id = id) =
    (l.find? (fun r => r.id = id)).map (fun r => if r.id = id then
        { r with resolution := resolutionString res } else r) := by
  rw [List.find?_map]
  have hp : ((fun (r : IncidentRow) => decide (r.id = id)) ∘ (fun r =>
      if r.id = id then { r with resolution := resolutionString res } else r)) =
      (fun (r : IncidentRow) => decide (r.id = id)) := by
    funext r
    by_cases h : r.id = id
    · simp [h]
    · simp [h]
  rw [hp]

/-- Claim C5 (amended): after a successful `SaveReview` with resolution `R`
and comment `c`, `ViewIncident` returns the incident with resolution `R` and
a comment whose author, message and timestamp equal `c`'s — but the comment's
resolution snapshot, although stored on the comment row as `R`, is not
populated in the returned comment (the view's scan discards the column,
leaving the zero value `UNSPECIFIED`). -/
theorem reviewThenView (s s' : DBState) (genId id : String) (res : Resolution)
    (c : Comment) (hok : SaveReview s genId id res c = Except.ok s') :
    ∃ inc, ViewIncident s' id = Except.ok inc ∧
      inc.resolution = res ∧
      (∃ cm ∈ inc.reviewerComments,
        cm.authorId = c.authorId ∧ cm.message = c.message ∧
        cm.timestamp = c.timestamp ∧
        cm.resolution = Resolution.RESOLUTION_UNSPECIFIED) ∧
      ({ id := genId, incident_id := id, timestamp := c.timestamp,
         author := c.authorId, comment := c.message,
         resolution := resolutionString res } : CommentRow) ∈ s'.comments := by
  obtain ⟨hhas, hs'⟩ := review_ok_shape s genId id res c s' hok
  -- the incident row found by the view
  obtain ⟨r0, hfind⟩ : ∃ r0, s.incidents.find? (fun r => r.id = id) = some r0 := by
    unfold hasIncident at hhas
    cases hf : s.incidents.find? (fun r => decide (r.id = id)) with
    | none => rw [hf] at hhas; cases hhas
    | some r => exact ⟨r, rfl⟩
  have hr0id : r0.id = id := by simpa using List.find?_some hfind
  have hfind' : s'.incidents.find? (fun r => r.id = id) =
      some { r0 with resolution := resolutionString res } := by
    rw [hs']
    show (s.incidents.map _).find? _ = _
    rw [find?_update_map, hfind]
    simp [hr0id]
  set newRow : CommentRow :=
    { id := genId, incident_id := id, timestamp := c.timestamp,
      author := c.authorId, comment := c.message,
      resolution := resolutionString res } with hnewRow
  set fetched : List Comment :=
    (s'.comments.filter (fun cr => cr.incident_id = id)).map
      (fun cr => { timestamp := cr.timestamp, authorId := cr.author,
                   message := cr.comment,
                   resolution := Resolution.RESOLUTION_UNSPECIFIED }) with hfetched
  have hview : ViewIncident s' id = Except.ok
      { scanIncident { r0 with resolution := resolutionString res } with
        reviewerComments := goSort
          ((scanIncident { r0 with resolution := resolutionString res }).reviewerComments
            ++ fetched) } := by
    unfold ViewIncident
    rw [hfind']
  refine ⟨_, hview, ?_, ?_, ?_⟩
  · show resolutionOfValue (resolutionValueLookup (resolutionString res)) = res
    cases res <;> rfl
  · -- membership of the new comment in the sorted output
    have hmemRow : newRow ∈ s'.comments.filter (fun cr => cr.incident_id = id) := by
      rw [hs']
      refine List.mem_filter.mpr ⟨List.mem_append_right _ (List.mem_singleton_self _), by simp⟩
    set newCm : Comment :=
      { timestamp := c.timestamp, authorId := c.authorId,
        message := c.message,
        resolution := Resolution.RESOLUTION_UNSPECIFIED } with hnewCm
    have hmemF : newCm ∈ fetched := by
      rw [hfetched]
      exact List.mem_map.mpr ⟨newRow, hmemRow, rfl⟩
    have hperm : (goSort ((scanIncident { r0 with
        resolution := resolutionString res }).reviewerComments ++ fetched)).Perm
        ([] ++ fetched) := goSort_perm _
    refine ⟨newCm, ?_, rfl, rfl, rfl, rfl⟩
    exact hperm.mem_iff.mpr (by simpa using hmemF)
  · rw [hs']
    exact List.mem_append_right _ (List.mem_singleton_self _)

/-- Witness for C5 on a concrete reviewed store. -/
theorem reviewThenView_witness :
    ∃ inc, ViewIncident exC5after "inc-1" = Except.ok inc ∧
      inc.resolution = Resolution.RESOLUTION_ACCEPTED ∧
      (∃ cm ∈ inc.reviewerComments,
        cm.authorId = exC5c.authorId ∧ cm.message = exC5c.message ∧
        cm.timestamp = exC5c.timestamp ∧
        cm.resolution = Resolution.RESOLUTION_UNSPECIFIED) ∧
      ({ id := "uuid-1", incident_id := "inc-1", timestamp := exC5c.timestamp,
         author := exC5c.authorId, comment := exC5c.message,
         resolution := resolutionString Resolution.RESOLUTION_ACCEPTED } : CommentRow)
        ∈ exC5after.comments :=
  reviewThenView exC2state exC5after "uuid-1" "inc-1" .RESOLUTION_ACCEPTED exC5c
    (by decide)

/-- Counterexample to C5 as stated: reviewing with `RESOLUTION_ACCEPTED`
and then viewing yields the incident with resolution `ACCEPTED`, but NO
returned comment carries resolution `ACCEPTED` together with the review
comment's author/message/timestamp — the resolution column is discarded on
read. -/
theorem reviewThenView_cex :
    SaveReview exC2state "uuid-1" "inc-1" .RESOLUTION_ACCEPTED exC5c
      = Except.ok exC5after ∧
    ViewIncident exC5after "inc-1" = Except.ok exC5inc ∧
    exC5inc.resolution = Resolution.RESOLUTION_ACCEPTED ∧
    ¬ ∃ cm ∈ exC5inc.reviewerComments,
        cm.resolution = Resolution.RESOLUTION_ACCEPTED ∧
        cm.authorId = exC5c.authorId ∧ cm.message = exC5c.message ∧
        cm.timestamp = exC5c.timestamp := by
  decide

/-- Counterexample to C4 as stated: with 13 comments (twelve sharing one
timestamp, fetched before a single older one), `ViewIncident` returns them
sorted non-decreasing by timestamp but ties are NOT in fetch order — the
equal-timestamp comments by "a0" and "a6" are fetched in that order and
returned in the opposite order (Go's `sort.Sort` is not stable). -/
theorem viewStableSort_cex :
    ViewIncident exC4state "i1" = Except.ok exC4inc ∧
    exC4fetched = (exC4state.comments.filter (fun cr => cr.incident_id = "i1")).map
      (fun cr => { timestamp := cr.timestamp, authorId := cr.author,
                   message := cr.comment,
                   resolution := Resolution.RESOLUTION_UNSPECIFIED }) ∧
    nonDecreasingTs exC4inc.reviewerComments = true ∧
    (mkc 2 "a0").timestamp = (mkc 2 "a6").timestamp ∧
    exC4fetched.indexOf (mkc 2 "a0") < exC4fetched.indexOf (mkc 2 "a6") ∧
    exC4inc.reviewerComments.indexOf (mkc 2 "a6") <
      exC4inc.reviewerComments.indexOf (mkc 2 "a0") := by
  decide

/-- Claim C4 (amended): `ViewIncident` returns exactly the incident's
fetched comments re-ordered by Go's `sort.Sort` under the by-timestamp
comparator — a permutation of them, none added or lost, in non-decreasing
timestamp order; the sort is not stable, so equal-timestamp comments may
leave fetch order, though on the spec's example of inserted timestamps
[300, 100, 200] the returned order is [100, 200, 300]. -/
theorem viewCommentsPermOfFetched (s : DBState) (id : String) (inc : Incident)
    (hok : ViewIncident s id = Except.ok inc) :
    inc.reviewerComments.Perm
      ((s.comments.filter (fun cr => cr.incident_id = id)).map
        (fun cr => { timestamp := cr.timestamp, authorId := cr.author,
                     message := cr.comment,
                     resolution := Resolution.RESOLUTION_UNSPECIFIED })) ∧
    nonDecreasingTs inc.reviewerComments = true ∧
    viewCommentTimestamps exC4sorted3state "i1" = [100, 200, 300] := by
  refine ⟨?_, ?_, by decide⟩
  · unfold ViewIncident at hok
    cases hfind : s.incidents.find? (fun r => r.id = id) with
    | none =>
      rw [hfind] at hok
      cases hok
    | some row =>
      rw [hfind] at hok
      injection hok with hok
      rw [← hok]
      dsimp only
      refine (goSort_perm _).trans ?_
      rw [show (scanIncident row).reviewerComments = ([] : List Comment) from rfl,
        List.nil_append]
  · unfold ViewIncident at hok
    cases hfind : s.incidents.find? (fun r => r.id = id) with
    | none =>
      rw [hfind] at hok
      cases hok
    | some row =>
      rw [hfind] at hok
      injection hok with hok
      rw [← hok]
      dsimp only
      exact goSort_nonDecreasing _

/-- Witness for C4 on the spec's [300, 100, 200] example store. -/
theorem viewCommentsPermOfFetched_witness :
    exC4sorted3inc.reviewerComments.Perm
      ((exC4sorted3state.comments.filter (fun cr => cr.incident_id = "i1")).map
        (fun cr => { timestamp := cr.timestamp, authorId := cr.author,
                     message := cr.comment,
                     resolution := Resolution.RESOLUTION_UNSPECIFIED })) ∧
    nonDecreasingTs exC4sorted3inc.reviewerComments = true ∧
    viewCommentTimestamps exC4sorted3state "i1" = [100, 200, 300] :=
  viewCommentsPermOfFetched exC4sorted3state "i1" exC4sorted3inc (by decide)

/-- Witness for C3 at a concrete store and region. -/
theorem regionBoundsAllStrict_witness :
    (scanIncident exC3rowS ∈ okList (IncidentsInRegion exC3state 0 exC3region) ↔
      ∃ r ∈ exC3state.incidents,
        (r.resolution = resolutionString .RESOLUTION_ACCEPTED ∨
         r.resolution = resolutionString .RESOLUTION_ALERTED) ∧
        r.timestamp > 0 ∧
        r.lat < (exC3region.north.tdiv 100 : ℚ) ∧
        r.lat > (exC3region.south.tdiv 100 : ℚ) ∧
        r.lon > (exC3region.west.tdiv 100 : ℚ) ∧
        r.lon < (exC3region.east.tdiv 100 : ℚ) ∧
        scanIncident r = scanIncident exC3rowS) ∧
    okList (IncidentsInRegion exC3state 0 exC3region) = [] :=
  regionBoundsAllStrict exC3state 0 exC3region (scanIncident exC3rowS)

/-- Witness for C7 at a concrete store and the pre-scaled region. -/
theorem regionBoundsScaledBy100_witness :
    (scanIncident exC7rowA ∈ okList (IncidentsInRegion exC7state 0
        { north := 1000, south := -1000, west := -1000, east := 1000 }) ↔
      ∃ r ∈ exC7state.incidents,
        (r.resolution = resolutionString .RESOLUTION_ACCEPTED ∨
         r.resolution = resolutionString .RESOLUTION_ALERTED) ∧
        r.timestamp > 0 ∧
        r.lat < (((1000 : Int).tdiv 100 : Int) : ℚ) ∧
        r.lat > (((-1000 : Int).tdiv 100 : Int) : ℚ) ∧
        r.lon > (((-1000 : Int).tdiv 100 : Int) : ℚ) ∧
        r.lon < (((1000 : Int).tdiv 100 : Int) : ℚ) ∧
        scanIncident r = scanIncident exC7rowA) ∧
    (scanIncident exC7rowA ∈ okList (AlertingIncidents exC7state 0
        { north := 1000, south := -1000, west := -1000, east := 1000 }) ↔
      ∃ r ∈ exC7state.incidents,
        r.resolution = resolutionString .RESOLUTION_ALERTED ∧
        r.timestamp > 0 ∧
        r.lat < (((1000 : Int).tdiv 100 : Int) : ℚ) ∧
        r.lat > (((-1000 : Int).tdiv 100 : Int) : ℚ) ∧
        r.lon > (((-1000 : Int).tdiv 100 : Int) : ℚ) ∧
        r.lon < (((1000 : Int).tdiv 100 : Int) : ℚ) ∧
        scanIncident r = scanIncident exC7rowA) ∧
    okList (IncidentsInRegion exC7state 0
      { north := 1000, south := -1000, west := -1000, east := 1000 }) =
      [scanIncident exC7rowA, scanIncident exC7rowB] ∧
    okList (IncidentsInRegion exC7state 0
      { north := 10, south := -10, west := -10, east := 10 }) = [] ∧
    okList (AlertingIncidents exC7state 0
      { north := 1000, south := -1000, west := -1000, east := 1000 }) =
      [scanIncident exC7rowB] ∧
    okList (AlertingIncidents exC7state 0
      { north := 10, south := -10, west := -10, east := 10 }) = [] :=
  regionBoundsScaledBy100 exC7state 0
    { north := 1000, south := -1000, west := -1000, east := 1000 }
    (scanIncident exC7rowA)

/-- Witness for C6 at a concrete store, center and radius. -/
theorem radiusFilter_witness :
    (scanIncident exC7rowA ∈ okList
        (IncidentsInRadius exC6dist exC7state ⟨0, 0⟩ 100) ↔
      ∃ r ∈ exC7state.incidents,
        (r.resolution = resolutionString .RESOLUTION_ACCEPTED ∨
         r.resolution = resolutionString .RESOLUTION_ALERTED) ∧
        exC6dist (0 : ℚ) (0 : ℚ) r.lat r.lon ≤ 100 ∧
        scanIncident r = scanIncident exC7rowA) ∧
    (∀ inc' ∈ okList (IncidentsInRadius exC6dist exC7state ⟨0, 0⟩ 100),
      inc'.resolution = Resolution.RESOLUTION_ACCEPTED ∨
      inc'.resolution = Resolution.RESOLUTION_ALERTED) :=
  radiusFilter exC6dist exC7state ⟨0, 0⟩ 100 (scanIncident exC7rowA)

end SaferPlace
